import Mathlib

/-!
# pubsub_cli: topic resolution, subscription provisioning and the subscribe fan-out

A shallow embedding of `pkg/pubsub.go` (`FindTopic`, `FindOrCreateTopic`,
`CreateUniqueSubscription`) and `cmd/subscribe.go` (`subscribe`).

Go code that talks to the messaging service is embedded as a value of `Prog`: a tree
whose nodes are the calls the code makes on its collaborators (the Pub/Sub client
library, `xid`, `fmt`, `colorstring`, the hand-off channel) and whose branches are the
continuations of the code after each call has returned.  The collaborators themselves
are a parameter (`Env`): an arbitrary state machine answering the calls.  A goroutine is
a `Prog` that is advanced one call at a time, so that the calls of several goroutines
can be interleaved in any order.
-/

namespace PubsubCli

/-! ## Values -/

/-- A non-nil Go `error`: either an error produced by a collaborator, or an error
annotated with a message by `errors.Wrapf`. A Go `error` that may be nil is an
`Option Err`. -/
inductive Err where
  | mk (msg : String)
  | withMessage (cause : Err) (msg : String)
  deriving DecidableEq, Repr

/-- Go `errors.Wrapf(err, format, args...)`, with the formatted message already rendered:
nil stays nil, any other error is annotated with the message. -/
def Wrapf (err : Option Err) (msg : String) : Option Err :=
  match err with
  | none => none
  | some e => some (Err.withMessage e msg)

/-- Go `*pubsub.Topic`: a handle naming a topic of a project. -/
structure Topic where
  project : String
  id : String
  deriving DecidableEq, Repr

/-- Go `name[strings.LastIndex(name, "/")+1:]`: the text after the last `/` of a name.
(The names of handles always hold a `/`; Go panics on a name without one.) -/
def afterLastSlash (name : String) : String :=
  String.mk (name.data.reverse.takeWhile fun c => c != '/').reverse

/-- The field `name` of a `pubsub.Topic`, as `(*pubsub.Client).Topic` sets it. -/
def Topic.name (t : Topic) : String := "projects/" ++ t.project ++ "/topics/" ++ t.id

/-- Go `(*pubsub.Topic).ID()`: the text after the last `/` of the name of the topic. -/
def Topic.ID (t : Topic) : String := afterLastSlash t.name

/-- Go `(*pubsub.Topic).String()`: the fully qualified name. -/
def Topic.String (t : Topic) : String := t.name

/-- Go `*pubsub.Subscription`: a handle naming a subscription of a project. -/
structure Subscription where
  project : String
  id : String
  deriving DecidableEq, Repr

/-- The field `name` of a `pubsub.Subscription`, as `(*pubsub.Client).Subscription` sets
it. -/
def Subscription.name (s : Subscription) : String :=
  "projects/" ++ s.project ++ "/subscriptions/" ++ s.id

/-- Go `(*pubsub.Subscription).ID()`: the text after the last `/` of the name of the
subscription. -/
def Subscription.ID (s : Subscription) : String := afterLastSlash s.name

/-- Go `pubsub.SubscriptionConfig`, the fields the program sets. Durations are
`time.Duration` values, that is nanoseconds. -/
structure SubscriptionConfig where
  Topic : PubsubCli.Topic
  AckDeadline : Int
  ExpirationPolicy : Int
  Labels : List (String × String)
  deriving DecidableEq, Repr

/-- Go `time.Hour` in nanoseconds. -/
def Hour : Int := 3600 * 1000000000

/-- Go `*pubsub.Message`, the fields the program reads; `Data` is the payload, a slice of
bytes. -/
structure Message where
  ID : String
  Data : List (Fin 256)
  deriving DecidableEq, Repr

/-- The `subscriber` struct of `cmd/subscribe.go`. -/
structure subscriber where
  topic : Topic
  sub : Subscription
  deriving DecidableEq, Repr

/-- Type `PubSubClient` of `pkg/pubsub.go`; of the embedded `*pubsub.Client` only the project
is relevant to the handles it hands out. -/
structure PubSubClient where
  projectID : String
  deriving DecidableEq, Repr

/-- Go `(*pubsub.Client).Topic(id)`: a handle, no call to the service. -/
def PubSubClient.Topic (pc : PubSubClient) (id : String) : Topic :=
  { project := pc.projectID, id := id }

/-- Go `(*pubsub.Client).Subscription(id)`: a handle, no call to the service. -/
def PubSubClient.Subscription (pc : PubSubClient) (id : String) : Subscription :=
  { project := pc.projectID, id := id }

/-! ## Calls on collaborators -/

/-- An argument of a formatting call: a Go string the program holds as text, or the Go
string `string(b)` made from the bytes `b` of a payload, which need not be text. -/
inductive Arg where
  | text (s : String)
  | bytes (b : List (Fin 256))
  deriving DecidableEq, Repr

/-- Equality of Go results `(value, err)` is decidable. -/
instance instDecidableEqExcept {ε α : Type} [DecidableEq ε] [DecidableEq α] :
    DecidableEq (Except ε α)
  | .ok a, .ok b =>
    if h : a = b then isTrue (by rw [h]) else isFalse (by intro h1; cases h1; exact h rfl)
  | .error a, .error b =>
    if h : a = b then isTrue (by rw [h]) else isFalse (by intro h1; cases h1; exact h rfl)
  | .ok _, .error _ => isFalse (by intro h; cases h)
  | .error _, .ok _ => isFalse (by intro h; cases h)

/-- One call made by the program, together with what the call returned. -/
inductive Event where
  /-- Go `topic.Exists(ctx)` returned `(exists, err)`. -/
  | topicExists (topic : Topic) (r : Except Err Bool)
  /-- Go `pc.CreateTopic(ctx, topicID)` returned `err`. -/
  | createTopic (topicID : String) (r : Option Err)
  /-- Go `xid.New().String()` returned `r`. -/
  | xidNew (r : String)
  /-- Go `pc.CreateSubscription(ctx, id, cfg)` returned `err`. -/
  | createSubscription (id : String) (cfg : SubscriptionConfig) (r : Option Err)
  /-- Go `fmt.Println(s)`. -/
  | println (s : String)
  /-- Go `colorstring.Fprintf(out, format, args...)`. -/
  | fprintf (format : String) (args : List Arg)
  /-- Go `subscribers <- s`. -/
  | send (s : subscriber)
  /-- Go `msg.Ack()`. -/
  | ack (msg : Message)
  /-- Go `fmt.Fprintln(out, s)`. -/
  | fprintln (s : String)
  deriving DecidableEq

/-- The code of a goroutine or function as the tree of calls it makes. -/
inductive Prog (α : Type) : Type where
  | ret (a : α)
  | topicExists (topic : Topic) (k : Except Err Bool → Prog α)
  | createTopic (topicID : String) (k : Option Err → Prog α)
  | xidNew (k : String → Prog α)
  | createSubscription (id : String) (cfg : SubscriptionConfig) (k : Option Err → Prog α)
  | println (s : String) (k : Prog α)
  | fprintf (format : String) (args : List Arg) (k : Prog α)
  | send (s : subscriber) (k : Prog α)
  | ack (msg : Message) (k : Prog α)

/-- Sequencing of `Prog`. -/
def Prog.bind {α β : Type} : Prog α → (α → Prog β) → Prog β
  | .ret a, f => f a
  | .topicExists t k, f => .topicExists t (fun r => (k r).bind f)
  | .createTopic t k, f => .createTopic t (fun r => (k r).bind f)
  | .xidNew k, f => .xidNew (fun r => (k r).bind f)
  | .createSubscription i c k, f => .createSubscription i c (fun r => (k r).bind f)
  | .println s k, f => .println s (k.bind f)
  | .fprintf s a k, f => .fprintf s a (k.bind f)
  | .send s k, f => .send s (k.bind f)
  | .ack m k, f => .ack m (k.bind f)

instance : Monad Prog where
  pure := Prog.ret
  bind := Prog.bind

/-- The collaborators of the program: the messaging service reached through the client
library, and the identifier generator. `σ` is their state; every call may change it and
may answer anything. -/
structure Env (σ : Type) where
  topicExists : σ → Topic → Except Err Bool × σ
  createTopic : σ → String → Option Err × σ
  xidNew : σ → String × σ
  createSubscription : σ → String → SubscriptionConfig → Option Err × σ

/-- Perform the first call of a program: the event, the rest of the program and the new
state of the collaborators; `none` when the program has returned. -/
def Prog.step {σ α : Type} (E : Env σ) : Prog α → σ → Option (Event × Prog α × σ)
  | .ret _, _ => none
  | .topicExists t k, s => let r := E.topicExists s t; some (.topicExists t r.1, k r.1, r.2)
  | .createTopic t k, s => let r := E.createTopic s t; some (.createTopic t r.1, k r.1, r.2)
  | .xidNew k, s => let r := E.xidNew s; some (.xidNew r.1, k r.1, r.2)
  | .createSubscription i c k, s =>
    let r := E.createSubscription s i c; some (.createSubscription i c r.1, k r.1, r.2)
  | .println x k, s => some (.println x, k, s)
  | .fprintf x a k, s => some (.fprintf x a, k, s)
  | .send x k, s => some (.send x, k, s)
  | .ack m k, s => some (.ack m, k, s)

/-- Run a program to its return with no other goroutine in between: the value returned,
the final state of the collaborators and the calls made, in order. -/
def Prog.run {σ α : Type} (E : Env σ) : Prog α → σ → α × σ × List Event
  | .ret a, s => (a, s, [])
  | .topicExists t k, s =>
    let r := E.topicExists s t
    let o := (k r.1).run E r.2
    (o.1, o.2.1, .topicExists t r.1 :: o.2.2)
  | .createTopic t k, s =>
    let r := E.createTopic s t
    let o := (k r.1).run E r.2
    (o.1, o.2.1, .createTopic t r.1 :: o.2.2)
  | .xidNew k, s =>
    let r := E.xidNew s
    let o := (k r.1).run E r.2
    (o.1, o.2.1, .xidNew r.1 :: o.2.2)
  | .createSubscription i c k, s =>
    let r := E.createSubscription s i c
    let o := (k r.1).run E r.2
    (o.1, o.2.1, .createSubscription i c r.1 :: o.2.2)
  | .println x k, s => let o := k.run E s; (o.1, o.2.1, .println x :: o.2.2)
  | .fprintf x a k, s => let o := k.run E s; (o.1, o.2.1, .fprintf x a :: o.2.2)
  | .send x k, s => let o := k.run E s; (o.1, o.2.1, .send x :: o.2.2)
  | .ack m k, s => let o := k.run E s; (o.1, o.2.1, .ack m :: o.2.2)

/-! ## `pkg/pubsub.go` -/

/-- Function `FindTopic`: finds the topic or returns nil if it does not exist. -/
def FindTopic (pc : PubSubClient) (topicID : String) : Prog (Except Err (Option Topic)) :=
  let topic := pc.Topic topicID
  Prog.topicExists topic fun r =>
    match r with
    | .error err => pure (.error (Err.withMessage err ("find topic " ++ topicID)))
    | .ok true => pure (.ok (some topic))
    | .ok false => pure (.ok none)

/-- Go `(*pubsub.Client).CreateTopic`: asks the service to create the topic and returns
the handle of the topic when the service reports no error. -/
def PubSubClient.CreateTopic (pc : PubSubClient) (topicID : String) :
    Prog (Except Err PubsubCli.Topic) :=
  Prog.createTopic topicID fun r =>
    match r with
    | some err => pure (.error err)
    | none => pure (.ok (pc.Topic topicID))

/-- Function `FindOrCreateTopic`: finds the topic or creates it if it does not exist. -/
def FindOrCreateTopic (pc : PubSubClient) (topicID : String) : Prog (Except Err Topic) := do
  match ← FindTopic pc topicID with
  | .error err => pure (.error err)
  | .ok (some topic) => pure (.ok topic)
  | .ok none =>
    match ← pc.CreateTopic topicID with
    | .error err => pure (.error (Err.withMessage err ("create topic " ++ topicID)))
    | .ok topic => pure (.ok topic)

/-- Go `(*pubsub.Client).CreateSubscription`: asks the service to create the subscription
and returns the handle of the subscription when the service reports no error. -/
def PubSubClient.CreateSubscription (pc : PubSubClient) (id : String) (cfg : SubscriptionConfig) :
    Prog (Except Err PubsubCli.Subscription) :=
  Prog.createSubscription id cfg fun r =>
    match r with
    | some err => pure (.error err)
    | none => pure (.ok (pc.Subscription id))

/-- Go `xid.New().String()`. -/
def xidNewString : Prog String := Prog.xidNew Prog.ret

/-- Function `CreateUniqueSubscription`: creates a unique subscription to the given topic. -/
def CreateUniqueSubscription (pc : PubSubClient) (topic : Topic) (ackDeadline : Int) :
    Prog (Except Err Subscription) := do
  let subscriptionConfig : SubscriptionConfig :=
    { Topic := topic
      AckDeadline := ackDeadline
      ExpirationPolicy := 24 * Hour
      Labels := [("created_by", "pubsub_cli")] }
  let x ← xidNewString
  match ← pc.CreateSubscription ("pubsub_cli_" ++ x) subscriptionConfig with
  | .error err => pure (.error err)
  | .ok sub => pure (.ok sub)

/-! ## `cmd/subscribe.go` -/

/-- The goroutine `subscribe` starts for one topic identifier (the function literal of
its first loop). The call site passes no acknowledgment deadline to
`CreateUniqueSubscription` although the function takes one; the deadline is a
parameter here. -/
def provisionTask (pc : PubSubClient) (ackDeadline : Int) (topicID : String) :
    Prog (Option Err) := do
  match ← FindOrCreateTopic pc topicID with
  | .error err => pure (some (Err.withMessage err ("find or create topic " ++ topicID)))
  | .ok topic =>
    Prog.println ("[start]creating unique subscription to " ++ topic.String ++ "...") (pure ())
    match ← CreateUniqueSubscription pc topic ackDeadline with
    | .error err =>
      pure (some (Err.withMessage err ("create unique subscription to " ++ topic.String)))
    | .ok sub =>
      Prog.send { topic := topic, sub := sub } (pure ())
      Prog.fprintf "[green][success] created subscription to %s\n" [.text topic.String]
        (pure ())
      pure none

/-- The callback `subscribe` passes to `Receive`. -/
def handler (s : subscriber) (msg : Message) : Prog Unit := do
  Prog.ack msg (pure ())
  Prog.fprintf "[green][success] got message published to %s, id: %s, data: %q\n"
    [.text s.topic.ID, .text msg.ID, .bytes msg.Data] (pure ())

/-- What the goroutine of a receive loop returns once `Receive` has returned `err`. -/
def receiveResult (s : subscriber) (err : Option Err) : Option Err :=
  Wrapf err ("receive message published to " ++ s.topic.ID ++ " through " ++ s.sub.ID ++
    " subscription")

/-! ### `errgroup.Group`

The group of `golang.org/x/sync/errgroup`, as its documentation describes it: `Go` runs
a function in a new goroutine, the first call to return a non-nil error has its error
kept, and `Wait` blocks until all function calls from `Go` have returned and then
returns that error. -/

/-- An `errgroup.Group` without context: the counter of its `sync.WaitGroup` and the error
stored through its `sync.Once`. -/
structure Group where
  running : Nat
  err : Option Err
  deriving DecidableEq, Repr

/-- Go `&errgroup.Group{}`. -/
def Group.zero : Group := { running := 0, err := none }

/-- Go `eg.Go(f)`: one more goroutine to wait for. -/
def Group.Go (g : Group) : Group := { g with running := g.running + 1 }

/-- The function passed to `Go` has returned `r`: the first non-nil error is kept and the
goroutine is no longer waited for. -/
def Group.done (g : Group) (r : Option Err) : Group :=
  { running := g.running - 1
    err := match g.err with
      | some e => some e
      | none => r }

/-- Go `eg.Wait()`: `none` while it blocks, that is while a goroutine of the group has not
returned, and the stored error afterwards. -/
def Group.Wait (g : Group) : Option (Option Err) :=
  if g.running = 0 then some g.err else none

/-! ### The provisioning phase -/

/-- A goroutine: still running the rest of its code, or returned. -/
inductive Status where
  | running (p : Prog (Option Err))
  | returned (r : Option Err)

/-- A goroutine of the provisioning phase with the calls it has made so far. -/
structure Task where
  status : Status
  log : List Event

/-- The state of the provisioning phase: the collaborators, the goroutines, the error
group and the buffered channel `subscribers` with its capacity. -/
structure Pool (σ : Type) where
  env : σ
  tasks : List Task
  eg : Group
  subscribers : List subscriber
  cap : Nat

/-- Goroutine `i` makes its next move: it returns the value its code has computed, or it
sends on the channel (a move it can only make while the buffer is not full), or it
makes its next call. Nothing happens when goroutine `i` has returned already. -/
def Pool.stepAt {σ : Type} (E : Env σ) (pool : Pool σ) (i : Nat) : Pool σ :=
  match pool.tasks[i]? with
  | some ⟨.running p, log⟩ =>
    match p with
    | .ret r =>
      { pool with tasks := pool.tasks.set i ⟨.returned r, log⟩, eg := pool.eg.done r }
    | .send x k =>
      if pool.subscribers.length < pool.cap then
        { pool with tasks := pool.tasks.set i ⟨.running k, log ++ [.send x]⟩,
                    subscribers := pool.subscribers ++ [x] }
      else pool
    | p =>
      match p.step E pool.env with
      | some (ev, q, s) =>
        { pool with env := s, tasks := pool.tasks.set i ⟨.running q, log ++ [ev]⟩ }
      | none => pool
  | _ => pool

/-- The goroutines move in the order the schedule gives. -/
def Pool.runSched {σ : Type} (E : Env σ) (pool : Pool σ) (sched : List Nat) : Pool σ :=
  sched.foldl (Pool.stepAt E) pool

/-- A schedule that lets every goroutine of `n` run to its return, one after the other:
a goroutine of the provisioning phase makes at most seven calls and then returns. -/
def completion (n : Nat) : List Nat :=
  (List.range n).flatMap fun i => List.replicate 8 i

/-- The state in which `subscribe` reaches its first `eg.Wait()`: a channel of capacity
`len(topicIDs)` and one goroutine started per topic identifier. -/
def Pool.start {σ : Type} (pc : PubSubClient) (ackDeadline : Int) (topicIDs : List String)
    (s : σ) : Pool σ :=
  { env := s
    tasks := topicIDs.map fun topicID => ⟨.running (provisionTask pc ackDeadline topicID), []⟩
    eg := topicIDs.foldl (fun g _ => g.Go) Group.zero
    subscribers := []
    cap := topicIDs.length }

/-- The provisioning phase under a schedule: the goroutines move as the schedule says,
and those that have not returned by its end then run to their return. Every
interleaving of the calls of the goroutines is the run of some schedule. -/
def provision {σ : Type} (E : Env σ) (pc : PubSubClient) (ackDeadline : Int)
    (topicIDs : List String) (sched : List Nat) (s : σ) : Pool σ :=
  (Pool.start pc ackDeadline topicIDs s).runSched E (sched ++ completion topicIDs.length)

/-! ### The listening phase -/

/-- A receive loop: the subscriber it serves and, once `Receive` has returned, what it
returned. -/
structure Loop where
  s : subscriber
  returned : Option (Option Err)
  deriving DecidableEq

/-- A call of the callback, which the client library runs in a goroutine of its own: the
subscriber and the message it was called with, the rest of its code and the calls it has
made so far. -/
structure Callback where
  s : subscriber
  msg : Message
  rest : Prog Unit
  log : List Event

/-- What happens during the listening phase: the service delivers a message to the
receive loop `i`, the callback started by the `j`-th delivery makes its next call, or the
`Receive` call of loop `i` returns. -/
inductive Delivery where
  | deliver (i : Nat) (msg : Message)
  | callbackMoves (j : Nat)
  | receiveReturns (i : Nat) (err : Option Err)
  deriving DecidableEq

/-- The state of the listening phase: the receive loops (one per subscriber, each with
`Receive` called on its subscription), the error group, the callbacks started so far, what
has been written and acknowledged so far by all of them, in order, and the results of the
loops in the order they returned. -/
structure Listen (σ : Type) where
  env : σ
  loops : List Loop
  eg : Group
  callbacks : List Callback
  out : List Event
  results : List (Option Err)

/-- The start of the listening phase: the line announcing it is written and one goroutine
per subscriber taken from the closed channel is started. -/
def Listen.start {σ : Type} (s : σ) (eg : Group) (subscribers : List subscriber) : Listen σ :=
  { env := s
    loops := subscribers.map fun x => ⟨x, none⟩
    eg := subscribers.foldl (fun g _ => g.Go) eg
    callbacks := []
    out := [.fprintln "[start] waiting for publish..."]
    results := [] }

/-- One move of the listening phase. A message delivered to a loop whose `Receive` has
not returned starts a callback on it; a callback that moves makes its next call, in any
order with the calls of the other callbacks; a returning `Receive` makes the goroutine of
its loop return. Moves that name no loop, a loop that has returned, no callback or a
callback that has returned do nothing. -/
def Listen.step {σ : Type} (E : Env σ) (l : Listen σ) : Delivery → Listen σ
  | .deliver i msg =>
    match l.loops[i]? with
    | some ⟨s, none⟩ =>
      { l with callbacks := l.callbacks ++ [⟨s, msg, handler s msg, []⟩] }
    | _ => l
  | .callbackMoves j =>
    match l.callbacks[j]? with
    | some cb =>
      match cb.rest.step E l.env with
      | some (ev, q, s) =>
        { l with env := s, out := l.out ++ [ev],
                 callbacks := l.callbacks.set j { cb with rest := q, log := cb.log ++ [ev] } }
      | none => l
    | none => l
  | .receiveReturns i err =>
    match l.loops[i]? with
    | some ⟨s, none⟩ =>
      { l with loops := l.loops.set i ⟨s, some err⟩,
               eg := l.eg.done (receiveResult s err),
               results := l.results ++ [receiveResult s err] }
    | _ => l

/-- The listening phase after the given moves. -/
def Listen.run {σ : Type} (E : Env σ) (l : Listen σ) (ds : List Delivery) : Listen σ :=
  ds.foldl (Listen.step E) l

/-- What is known of a call of `subscribe`: the value it has returned (`none` while it is
blocked in `eg.Wait()`), the state in which the provisioning phase ended, and the
state of the listening phase when it was entered. -/
structure Outcome (σ : Type) where
  result : Option (Option Err)
  provisioned : Pool σ
  listening : Option (Listen σ)

/-- Function `subscribe`: subscribes Pub/Sub messages. `sched` is the order in which the
goroutines of the provisioning phase move and `ds` what the service does during the
listening phase. When the first `eg.Wait()` returns an error, `subscribe` returns it;
otherwise the channel is closed, and one receive loop is started for every record in it,
on the same group, whose `Wait` gives the result. -/
def subscribe {σ : Type} (E : Env σ) (pc : PubSubClient) (ackDeadline : Int)
    (topicIDs : List String) (sched : List Nat) (ds : List Delivery) (s : σ) : Outcome σ :=
  let pool := provision E pc ackDeadline topicIDs sched s
  match pool.eg.Wait with
  | none => { result := none, provisioned := pool, listening := none }
  | some (some err) => { result := some (some err), provisioned := pool, listening := none }
  | some none =>
    let l := (Listen.start pool.env pool.eg pool.subscribers).run E ds
    { result := l.eg.Wait, provisioned := pool, listening := some l }

/-- The subscriptions on which `Receive` has been called. -/
def Outcome.receiveCalls {σ : Type} (o : Outcome σ) : List Subscription :=
  match o.listening with
  | none => []
  | some l => l.loops.map fun x => x.s.sub

/-- The subscriber records handed to the listening phase. -/
def Outcome.handedOver {σ : Type} (o : Outcome σ) : List subscriber :=
  match o.listening with
  | none => []
  | some l => l.loops.map fun x => x.s

/-! ## A messaging service for examples -/

/-- An in-memory messaging service: its topics, its subscriptions (name and topic), the
counter behind the identifier generator and the topics whose existence check is
refused. -/
structure Service where
  topics : List String
  subscriptions : List (String × String)
  next : Nat
  denied : List String
  deriving DecidableEq, Repr

/-- The in-memory service as collaborators of the program: creating a topic that exists
is a conflict, a subscription needs an existing topic and an unused name. -/
def memEnv : Env Service where
  topicExists s t :=
    if t.id ∈ s.denied then (.error (Err.mk "permission denied"), s)
    else (.ok (decide (t.id ∈ s.topics)), s)
  createTopic s t :=
    if t ∈ s.topics then (some (Err.mk "already exists"), s)
    else (none, { s with topics := s.topics ++ [t] })
  xidNew s := (toString s.next, { s with next := s.next + 1 })
  createSubscription s id cfg :=
    if cfg.Topic.id ∉ s.topics then (some (Err.mk "not found"), s)
    else if id ∈ s.subscriptions.map Prod.fst then (some (Err.mk "already exists"), s)
    else (none, { s with subscriptions := s.subscriptions ++ [(id, cfg.Topic.id)] })

/-- The empty in-memory service. -/
def Service.empty : Service := { topics := [], subscriptions := [], next := 0, denied := [] }

/-! ## Reading a list of calls -/

/-- The call is a `CreateTopic` call. -/
def Event.isCreateTopic : Event → Bool
  | .createTopic _ _ => true
  | _ => false

/-- The call is a `CreateSubscription` call. -/
def Event.isCreateSubscription : Event → Bool
  | .createSubscription _ _ _ => true
  | _ => false

/-- The call is a call on the messaging service that returned an error. -/
def Event.failed : Event → Bool
  | .topicExists _ (.error _) => true
  | .createTopic _ (some _) => true
  | .createSubscription _ _ (some _) => true
  | _ => false

/-- The record sent on the channel, when the call is a send. -/
def Event.sent : Event → Option subscriber
  | .send x => some x
  | _ => none

/-- The subscription name requested, when the call is a `CreateSubscription` call. -/
def Event.requestedName : Event → Option String
  | .createSubscription id _ _ => some id
  | _ => none

/-- The identifier generated, when the call is a call of the identifier generator. -/
def Event.generated : Event → Option String
  | .xidNew x => some x
  | _ => none

/-- The configuration `CreateUniqueSubscription` requests for a topic. -/
def uniqueConfig (topic : Topic) (ackDeadline : Int) : SubscriptionConfig :=
  { Topic := topic
    AckDeadline := ackDeadline
    ExpirationPolicy := 24 * Hour
    Labels := [("created_by", "pubsub_cli")] }

/-- The goroutine has returned. -/
def Task.returned (t : Task) : Bool :=
  match t.status with
  | .returned _ => true
  | .running _ => false

/-- The value the goroutine has returned, `none` while it runs. -/
def Task.result (t : Task) : Option (Option Err) :=
  match t.status with
  | .returned r => some r
  | .running _ => none

/-- Function `FindOrCreateTopic` has returned an error to the goroutine with this list of calls:
its existence check failed or its `CreateTopic` call failed. -/
def resolutionFailed (log : List Event) : Bool :=
  log.any fun ev =>
    match ev with
    | .topicExists _ (.error _) => true
    | .createTopic _ (some _) => true
    | _ => false

/-! ## Programs and the calls they have made -/

/-- The first call of the program is the call recorded by the event. -/
def Prog.makes {α : Type} : Prog α → Event → Bool
  | .topicExists t _, .topicExists u _ => decide (t = u)
  | .createTopic t _, .createTopic u _ => decide (t = u)
  | .xidNew _, .xidNew _ => true
  | .createSubscription i c _, .createSubscription j e _ => decide (i = j) && decide (c = e)
  | .println x _, .println y => decide (x = y)
  | .fprintf x a _, .fprintf y b => decide (x = y) && decide (a = b)
  | .send x _, .send y => decide (x = y)
  | .ack m _, .ack n => decide (m = n)
  | _, _ => false

/-- The rest of the program once its first call has returned what the event records. -/
def Prog.next {α : Type} : Prog α → Event → Prog α
  | .topicExists _ k, .topicExists _ r => k r
  | .createTopic _ k, .createTopic _ r => k r
  | .xidNew k, .xidNew r => k r
  | .createSubscription _ _ k, .createSubscription _ _ r => k r
  | .println _ k, .println _ => k
  | .fprintf _ _ k, .fprintf _ _ => k
  | .send _ k, .send _ => k
  | .ack _ k, .ack _ => k
  | p, _ => p

/-- The rest of the program once it has made the calls of the list. -/
def Prog.after {α : Type} (p : Prog α) : List Event → Prog α
  | [] => p
  | ev :: es => (p.next ev).after es

/-- The list is a list of calls the program can make, from its start and in this order. -/
def Prog.produces {α : Type} (p : Prog α) : List Event → Bool
  | [] => true
  | ev :: es => p.makes ev && (p.next ev).produces es

/-- What a goroutine does next: it returns, it sends on the channel, or it makes a call
on a collaborator. -/
inductive Head where
  | ret (r : Option Err)
  | send (x : subscriber)
  | call
  deriving DecidableEq

/-- What the program does next. -/
def Prog.head : Prog (Option Err) → Head
  | .ret r => .ret r
  | .send x _ => .send x
  | _ => .call

/-- How far a goroutine of the provisioning phase is from its return, at most, in moves. -/
def Task.rank (t : Task) : Nat :=
  match t.status with
  | .returned _ => 0
  | .running p =>
    match p.head with
    | .ret _ => 1
    | _ => 8 - t.log.length

/-! ## The calls of a provisioning goroutine -/

/-- The line a provisioning goroutine prints once its topic is resolved. -/
def announcement (topic : Topic) : String :=
  "[start]creating unique subscription to " ++ topic.String ++ "..."

/-- The subscriber record of topic `t` and generated identifier `x`. -/
def recordOf (pc : PubSubClient) (t x : String) : subscriber :=
  { topic := pc.Topic t, sub := pc.Subscription ("pubsub_cli_" ++ x) }

/-- The calls of a provisioning goroutine after its topic is resolved, when the
generated identifier is `x` and `CreateSubscription` returns `r`. -/
def stages (pc : PubSubClient) (d : Int) (t x : String) (r : Option Err) : List Event :=
  [.println (announcement (pc.Topic t)),
   .xidNew x,
   .createSubscription ("pubsub_cli_" ++ x) (uniqueConfig (pc.Topic t) d) r,
   .send (recordOf pc t x),
   .fprintf "[green][success] created subscription to %s\n" [.text (pc.Topic t).String]]

/-- The calls by which `FindOrCreateTopic` resolves topic `t`: the topic is found, or it
is not found and then created. -/
def Resolved (pc : PubSubClient) (t : String) (pre : List Event) : Prop :=
  pre = [.topicExists (pc.Topic t) (.ok true)] ∨
  pre = [.topicExists (pc.Topic t) (.ok false), .createTopic t none]

/-- The lists of calls a provisioning goroutine for topic `t` can have made, each with
what the goroutine does next. -/
inductive Shape (pc : PubSubClient) (d : Int) (t : String) : List Event → Head → Prop where
  | start : Shape pc d t [] .call
  | checkFailed (e : Err) :
    Shape pc d t [.topicExists (pc.Topic t) (.error e)]
      (.ret (some (.withMessage (.withMessage e ("find topic " ++ t))
        ("find or create topic " ++ t))))
  | missing : Shape pc d t [.topicExists (pc.Topic t) (.ok false)] .call
  | createFailed (e : Err) :
    Shape pc d t [.topicExists (pc.Topic t) (.ok false), .createTopic t (some e)]
      (.ret (some (.withMessage (.withMessage e ("create topic " ++ t))
        ("find or create topic " ++ t))))
  | resolved (pre : List Event) (h : Resolved pc t pre) : Shape pc d t pre .call
  | announced (pre : List Event) (h : Resolved pc t pre) (x : String) (r : Option Err) :
    Shape pc d t (pre ++ (stages pc d t x r).take 1) .call
  | named (pre : List Event) (h : Resolved pc t pre) (x : String) (r : Option Err) :
    Shape pc d t (pre ++ (stages pc d t x r).take 2) .call
  | subscribeFailed (pre : List Event) (h : Resolved pc t pre) (x : String) (e : Err) :
    Shape pc d t (pre ++ (stages pc d t x (some e)).take 3)
      (.ret (some (.withMessage e ("create unique subscription to " ++ (pc.Topic t).String))))
  | subscribed (pre : List Event) (h : Resolved pc t pre) (x : String) :
    Shape pc d t (pre ++ (stages pc d t x none).take 3) (.send (recordOf pc t x))
  | sent (pre : List Event) (h : Resolved pc t pre) (x : String) :
    Shape pc d t (pre ++ (stages pc d t x none).take 4) .call
  | reported (pre : List Event) (h : Resolved pc t pre) (x : String) :
    Shape pc d t (pre ++ stages pc d t x none) (.ret none)

/-- The code of a provisioning goroutine from the point where its topic is resolved. -/
def provisionRest (pc : PubSubClient) (d : Int) (t : String) : Prog (Option Err) :=
  Prog.println (announcement (pc.Topic t)) (Prog.xidNew fun x =>
    Prog.createSubscription ("pubsub_cli_" ++ x) (uniqueConfig (pc.Topic t) d) fun r =>
      match r with
      | some e => Prog.ret (some (.withMessage e
          ("create unique subscription to " ++ (pc.Topic t).String)))
      | none => Prog.send (recordOf pc t x)
          (Prog.fprintf "[green][success] created subscription to %s\n"
            [.text (pc.Topic t).String]
            (Prog.ret none)))

/-- The state of a provisioning goroutine for topic `t` agrees with the calls it has made:
the calls are calls its code can make, and it is about to run (or has returned the
result of) what is left of its code after them. -/
def TaskOK (pc : PubSubClient) (d : Int) (t : String) (task : Task) : Prop :=
  (provisionTask pc d t).produces task.log = true ∧
  match task.status with
  | .running p => p = (provisionTask pc d t).after task.log
  | .returned r => (provisionTask pc d t).after task.log = .ret r

/-- What holds of the provisioning phase of `subscribe` for `topicIDs` at every moment. -/
structure PInv {σ : Type} (pc : PubSubClient) (d : Int) (topicIDs : List String)
    (pool : Pool σ) : Prop where
  /-- One goroutine per topic identifier, in the order of the identifiers. -/
  tasks : List.Forall₂ (TaskOK pc d) topicIDs pool.tasks
  /-- The channel has room for one record per identifier. -/
  cap : pool.cap = topicIDs.length
  /-- The group waits for the goroutines that have not returned. -/
  running : pool.eg.running = pool.tasks.countP fun t => !t.returned
  /-- While the group holds no error, no goroutine has returned one. -/
  noErr : pool.eg.err = none → ∀ task ∈ pool.tasks, ∀ r, task.result = some r → r = none
  /-- The error the group holds was returned by a goroutine. -/
  errFrom : ∀ e, pool.eg.err = some e → ∃ task ∈ pool.tasks, task.result = some (some e)
  /-- The channel holds the records the goroutines have sent. -/
  chan : pool.subscribers.Perm (pool.tasks.flatMap fun t => t.log.filterMap Event.sent)

/-- The moves of goroutine `i`, one case per kind of move. -/
inductive Moves {σ : Type} (E : Env σ) (pool : Pool σ) (i : Nat) : Pool σ → Prop where
  | idle (h : pool.tasks[i]? = none ∨ (∃ task, pool.tasks[i]? = some task ∧ task.returned = true) ∨
      (∃ log x k, pool.tasks[i]? = some ⟨.running (.send x k), log⟩ ∧
        ¬ pool.subscribers.length < pool.cap)) : Moves E pool i pool
  | returns (log : List Event) (r : Option Err)
      (h : pool.tasks[i]? = some ⟨.running (.ret r), log⟩) :
      Moves E pool i
        { pool with tasks := pool.tasks.set i ⟨.returned r, log⟩, eg := pool.eg.done r }
  | sends (log : List Event) (x : subscriber) (k : Prog (Option Err))
      (h : pool.tasks[i]? = some ⟨.running (.send x k), log⟩)
      (hc : pool.subscribers.length < pool.cap) :
      Moves E pool i
        { pool with tasks := pool.tasks.set i ⟨.running k, log ++ [.send x]⟩,
                    subscribers := pool.subscribers ++ [x] }
  | calls (log : List Event) (p q : Prog (Option Err)) (ev : Event) (s : σ)
      (h : pool.tasks[i]? = some ⟨.running p, log⟩) (hm : p.makes ev = true)
      (hq : q = p.next ev) (hs : ev.sent = none) (hh : p.head = .call)
      (hstep : p.step E pool.env = some (ev, q, s)) :
      Moves E pool i
        { pool with env := s, tasks := pool.tasks.set i ⟨.running q, log ++ [ev]⟩ }

/-- The rank of goroutine `j` of the pool, 0 when there is no such goroutine. -/
def Pool.rankAt {σ : Type} (pool : Pool σ) (j : Nat) : Nat :=
  match pool.tasks[j]? with
  | some task => task.rank
  | none => 0

/-- The receive loops of the listening phase, none when it was not entered. -/
def Outcome.loops {σ : Type} (o : Outcome σ) : List Loop :=
  match o.listening with
  | none => []
  | some l => l.loops

/-- What the goroutines of the receive loops have returned, in the order they returned. -/
def Outcome.results {σ : Type} (o : Outcome σ) : List (Option Err) :=
  match o.listening with
  | none => []
  | some l => l.results

/-- What the listening phase has written and acknowledged, in order. -/
def Outcome.out {σ : Type} (o : Outcome σ) : List Event :=
  match o.listening with
  | none => []
  | some l => l.out

/-- The number of callbacks the listening phase has started. -/
def Outcome.callbackCount {σ : Type} (o : Outcome σ) : Nat :=
  match o.listening with
  | none => 0
  | some l => l.callbacks.length

/-- The subscriber and the message the `j`-th callback was called with. -/
def Outcome.callbackOf {σ : Type} (o : Outcome σ) (j : Nat) : Option (subscriber × Message) :=
  match o.listening with
  | none => none
  | some l => l.callbacks[j]?.map fun cb => (cb.s, cb.msg)

/-- The calls the `j`-th callback has made so far, in order. -/
def Outcome.callbackLog {σ : Type} (o : Outcome σ) (j : Nat) : List Event :=
  match o.listening with
  | none => []
  | some l =>
    match l.callbacks[j]? with
    | some cb => cb.log
    | none => []

/-- The `got message` line of the callback: the call of `colorstring.Fprintf` with the
identifier of the topic of the subscriber, the identifier of the message and
`string(msg.Data)`. -/
def gotMessage (x : subscriber) (msg : Message) : Event :=
  .fprintf "[green][success] got message published to %s, id: %s, data: %q\n"
    [.text x.topic.ID, .text msg.ID, .bytes msg.Data]

/-- The state of a callback agrees with the calls it has made: nothing yet, the
acknowledgment, or the acknowledgment and then the line, after which it has returned. -/
def Callback.OK (cb : Callback) : Prop :=
  (cb.log = [] ∧ cb.rest = handler cb.s cb.msg) ∨
  (cb.log = [.ack cb.msg] ∧ cb.rest = (handler cb.s cb.msg).next (.ack cb.msg)) ∨
  (cb.log = [.ack cb.msg, gotMessage cb.s cb.msg] ∧ cb.rest = .ret ())

/-- The first non-nil error of a list of results, nil when there is none. -/
def firstError (rs : List (Option Err)) : Option Err :=
  (rs.filterMap id).head?

/-- What holds of the listening phase at every moment: the group waits for the loops that
have not returned, it holds the first non-nil result, and the results are those of the
loops that have returned. -/
structure LInv {σ : Type} (l : Listen σ) : Prop where
  running : l.eg.running = l.loops.countP fun lp => lp.returned.isNone
  err : l.eg.err = firstError l.results
  results : l.results.Perm (l.loops.flatMap fun lp =>
    match lp.returned with
    | none => []
    | some err => [receiveResult lp.s err])

/-- The identifiers generated by the goroutines of the pool so far. -/
def Pool.generated {σ : Type} (pool : Pool σ) : List String :=
  pool.tasks.flatMap fun t => t.log.filterMap Event.generated

/-- The contract of the identifier generator `xid`: it never issues an identifier twice.
`issued` is the list of the identifiers issued so far, which a state of the collaborators
determines: a generated identifier is not among them and is among them afterwards, and no
call takes an identifier out of the list. -/
structure Env.Fresh {σ : Type} (E : Env σ) (issued : σ → List String) : Prop where
  xidNew : ∀ s, (E.xidNew s).1 ∉ issued s ∧ (E.xidNew s).1 ∈ issued (E.xidNew s).2 ∧
    issued s ⊆ issued (E.xidNew s).2
  topicExists : ∀ s t, issued s ⊆ issued (E.topicExists s t).2
  createTopic : ∀ s t, issued s ⊆ issued (E.createTopic s t).2
  createSubscription : ∀ s i c, issued s ⊆ issued (E.createSubscription s i c).2

/-- The identifiers the in-memory service has issued: the numerals below its counter. -/
def Service.issued (s : Service) : List String :=
  (List.range s.next).map toString

/-- The calls goroutine `i` of the pool has made, in order. -/
def Pool.logAt {σ : Type} (pool : Pool σ) (i : Nat) : List Event :=
  match pool.tasks[i]? with
  | some task => task.log
  | none => []

/-- What holds of the callbacks of the listening phase at every moment: the state of each
agrees with the calls it has made, and these calls are among the calls of the phase, in
the same order. -/
def CInv {σ : Type} (l : Listen σ) : Prop :=
  ∀ (j : Nat) (cb : Callback), l.callbacks[j]? = some cb → cb.OK ∧ cb.log.Sublist l.out

/-- What holds of the identifiers generated during the provisioning phase at every
moment, when the generator keeps its contract: no identifier was generated twice, and all
are among the identifiers issued. -/
def XInv {σ : Type} (issued : σ → List String) (pool : Pool σ) : Prop :=
  pool.generated.Nodup ∧ ∀ x ∈ pool.generated, x ∈ issued pool.env

/-! # Lemmas on programs, goroutines and the two phases -/

/-- What is left of a program after one more call. -/
theorem Prog.after_snoc {α : Type} (p : Prog α) (L : List Event) (ev : Event) :
    p.after (L ++ [ev]) = (p.after L).next ev := by
  induction L generalizing p with
  | nil => rfl
  | cons e es ih => exact ih (p.next e)

/-- A list of calls extended by one call is produced when the list is and the rest of the program makes that call. -/
theorem Prog.produces_snoc {α : Type} (p : Prog α) (L : List Event) (ev : Event) :
    p.produces (L ++ [ev]) = (p.produces L && (p.after L).makes ev) := by
  induction L generalizing p with
  | nil => simp [Prog.produces, Prog.after]
  | cons e es ih => simp [Prog.produces, Prog.after, ih, Bool.and_assoc]

/-- The call a program performs is its first call, and the program goes on with what follows it. -/
theorem Prog.step_makes {σ α : Type} (E : Env σ) (p q : Prog α) (s u : σ) (ev : Event)
    (h : p.step E s = some (ev, q, u)) : p.makes ev = true ∧ q = p.next ev := by
  cases p <;> simp [Prog.step] at h <;> obtain ⟨rfl, rfl, rfl⟩ := h <;> simp [Prog.makes, Prog.next]

/-- Related lists are related position by position. -/
theorem forall₂_getElem? {α β : Type} {R : α → β → Prop} {l1 : List α} {l2 : List β}
    (h : List.Forall₂ R l1 l2) (i : Nat) (b : β) (hb : l2[i]? = some b) :
    ∃ a, l1[i]? = some a ∧ R a b := by
  induction h generalizing i with
  | nil => simp at hb
  | cons hab _ ih =>
    cases i with
    | zero =>
      simp only [List.getElem?_cons_zero, Option.some.injEq] at hb
      subst hb
      exact ⟨_, by simp, hab⟩
    | succ n =>
      simp only [List.getElem?_cons_succ] at hb ⊢
      exact ih n hb

/-- Replacing an element by one related to the same partner keeps two lists related. -/
theorem forall₂_set {α β : Type} {R : α → β → Prop} {l1 : List α} {l2 : List β}
    (h : List.Forall₂ R l1 l2) (i : Nat) (a : α) (b : β) (ha : l1[i]? = some a) (hab : R a b) :
    List.Forall₂ R l1 (l2.set i b) := by
  induction h generalizing i with
  | nil => simp at ha
  | cons hxy hrest ih =>
    cases i with
    | zero =>
      simp only [List.getElem?_cons_zero, Option.some.injEq] at ha
      subst ha
      exact List.Forall₂.cons hab hrest
    | succ n =>
      simp only [List.getElem?_cons_succ] at ha
      exact List.Forall₂.cons hxy (ih n ha)

/-- How replacing one element changes a count. -/
theorem countP_set {α : Type} (p : α → Bool) (l : List α) (i : Nat) (a b : α)
    (ha : l[i]? = some a) :
    (l.set i b).countP p + (if p a then 1 else 0) = l.countP p + (if p b then 1 else 0) := by
  induction l generalizing i with
  | nil => simp at ha
  | cons x xs ih =>
    cases i with
    | zero =>
      simp only [List.getElem?_cons_zero, Option.some.injEq] at ha
      subst ha
      simp only [List.set_cons_zero, List.countP_cons]
      omega
    | succ n =>
      simp only [List.getElem?_cons_succ] at ha
      have := ih n ha
      simp only [List.set_cons_succ, List.countP_cons]
      omega

/-- Replacing an element by one that yields some more items adds these items, up to order. -/
theorem flatMap_set_perm {α β : Type} (f : α → List β) (l : List α) (i : Nat) (a b : α)
    (ys : List β) (ha : l[i]? = some a) (hf : f b = f a ++ ys) :
    ((l.set i b).flatMap f).Perm (l.flatMap f ++ ys) := by
  induction l generalizing i with
  | nil => simp at ha
  | cons x xs ih =>
    cases i with
    | zero =>
      simp only [List.getElem?_cons_zero, Option.some.injEq] at ha
      subst ha
      simp only [List.set_cons_zero, List.flatMap_cons, hf, List.append_assoc]
      exact List.Perm.append_left _ List.perm_append_comm
    | succ n =>
      simp only [List.getElem?_cons_succ] at ha
      simp only [List.set_cons_succ, List.flatMap_cons, List.append_assoc]
      exact List.Perm.append_left _ (ih n ha)

/-- When every element yields at most one item and one element yields none, there are fewer items than elements. -/
theorem flatMap_length_lt {α β : Type} (f : α → List β) (l : List α) (i : Nat) (a : α)
    (ha : l[i]? = some a) (hf : f a = []) (hall : ∀ x ∈ l, (f x).length ≤ 1) :
    (l.flatMap f).length < l.length := by
  have hle : ∀ l : List α, (∀ x ∈ l, (f x).length ≤ 1) → (l.flatMap f).length ≤ l.length := by
    intro l
    induction l with
    | nil => simp
    | cons x xs ih =>
      intro h
      have h1 := h x (List.mem_cons_self _ _)
      have h2 := ih (fun y hy => h y (List.mem_cons_of_mem _ hy))
      simp only [List.flatMap_cons, List.length_append, List.length_cons]
      omega
  induction l generalizing i with
  | nil => simp at ha
  | cons x xs ih =>
    cases i with
    | zero =>
      simp only [List.getElem?_cons_zero, Option.some.injEq] at ha
      subst ha
      have h2 := hle xs (fun y hy => hall y (List.mem_cons_of_mem _ hy))
      simp only [List.flatMap_cons, hf, List.nil_append, List.length_cons]
      omega
    | succ n =>
      simp only [List.getElem?_cons_succ] at ha
      have h1 := hall x (List.mem_cons_self _ _)
      have h2 := ih n ha (fun y hy => hall y (List.mem_cons_of_mem _ hy))
      simp only [List.flatMap_cons, List.length_append, List.length_cons]
      omega

/-- The rest of a provisioning goroutine once its topic is resolved. -/
theorem provisionTask_found (pc : PubSubClient) (d : Int) (t : String) :
    (provisionTask pc d t).next (.topicExists (pc.Topic t) (.ok true)) = provisionRest pc d t := by
  simp only [provisionTask, FindOrCreateTopic, FindTopic, bind, Prog.bind, Prog.next, pure,
    CreateUniqueSubscription, xidNewString, PubSubClient.CreateSubscription, announcement,
    uniqueConfig, recordOf, provisionRest]
  refine congrArg (Prog.println _) (congrArg Prog.xidNew (funext fun x =>
    congrArg (Prog.createSubscription _ _) (funext fun r => ?_)))
  cases r <;> rfl

/-- The rest of a provisioning goroutine once its topic is created. -/
theorem provisionTask_created (pc : PubSubClient) (d : Int) (t : String) :
    ((provisionTask pc d t).next (.topicExists (pc.Topic t) (.ok false))).next
      (.createTopic t none) = provisionRest pc d t := by
  simp only [provisionTask, FindOrCreateTopic, FindTopic, bind, Prog.bind, Prog.next, pure,
    CreateUniqueSubscription, xidNewString, PubSubClient.CreateSubscription, announcement,
    uniqueConfig, recordOf, provisionRest, PubSubClient.CreateTopic]
  refine congrArg (Prog.println _) (congrArg Prog.xidNew (funext fun x =>
    congrArg (Prog.createSubscription _ _) (funext fun r => ?_)))
  cases r <;> rfl

/-- A program that has returned makes no call. -/
theorem ret_produces {α : Type} (a : α) (L : List Event) (h : (Prog.ret a).produces L = true) :
    L = [] := by
  cases L with
  | nil => rfl
  | cons e es => simp [Prog.produces, Prog.makes] at h

/-- The lists of calls of a goroutine from the point where its topic is resolved. -/
theorem shape_rest (pc : PubSubClient) (d : Int) (t : String) (pre : List Event)
    (hpre : Resolved pc t pre) (L : List Event)
    (h : (provisionRest pc d t).produces L = true) :
    Shape pc d t (pre ++ L) ((provisionRest pc d t).after L).head := by
  rcases L with _ | ⟨e1, L⟩
  · simpa [Prog.after, provisionRest, Prog.head] using Shape.resolved pre hpre
  cases e1 <;> simp [provisionRest, Prog.produces, Prog.makes, Prog.next] at h
  obtain ⟨rfl, h⟩ := h
  rcases L with _ | ⟨e2, L⟩
  · simpa [Prog.after, provisionRest, Prog.head, Prog.next, stages] using
      Shape.announced pre hpre "" none
  cases e2 <;> simp [Prog.produces, Prog.makes, Prog.next] at h
  rename_i x
  rcases L with _ | ⟨e3, L⟩
  · simpa [Prog.after, provisionRest, Prog.head, Prog.next, stages] using
      Shape.named pre hpre x none
  cases e3 <;> simp [Prog.produces, Prog.makes, Prog.next] at h
  rename_i n c r
  obtain ⟨⟨rfl, rfl⟩, h⟩ := h
  cases r with
  | some e =>
    simp only at h
    have := ret_produces _ _ h
    subst this
    simpa [Prog.after, provisionRest, Prog.head, Prog.next, stages] using
      Shape.subscribeFailed pre hpre x e
  | none =>
    simp only at h
    rcases L with _ | ⟨e4, L⟩
    · simpa [Prog.after, provisionRest, Prog.head, Prog.next, stages] using
        Shape.subscribed pre hpre x
    cases e4 <;> simp [Prog.produces, Prog.makes, Prog.next] at h
    obtain ⟨rfl, h⟩ := h
    rcases L with _ | ⟨e5, L⟩
    · simpa [Prog.after, provisionRest, Prog.head, Prog.next, stages] using
        Shape.sent pre hpre x
    cases e5 <;> simp [Prog.produces, Prog.makes, Prog.next] at h
    obtain ⟨⟨rfl, rfl⟩, h⟩ := h
    have := ret_produces _ _ h
    subst this
    simpa [Prog.after, provisionRest, Prog.head, Prog.next, stages] using
      Shape.reported pre hpre x

/-- The goroutine returns the wrapped error when its existence check fails. -/
theorem provisionTask_checkFailed (pc : PubSubClient) (d : Int) (t : String) (e : Err) :
    (provisionTask pc d t).next (.topicExists (pc.Topic t) (.error e)) =
      Prog.ret (some (.withMessage (.withMessage e ("find topic " ++ t))
        ("find or create topic " ++ t))) := rfl

/-- The goroutine returns the wrapped error when its `CreateTopic` call fails. -/
theorem provisionTask_createFailed (pc : PubSubClient) (d : Int) (t : String) (e : Err) :
    ((provisionTask pc d t).next (.topicExists (pc.Topic t) (.ok false))).next
      (.createTopic t (some e)) =
      Prog.ret (some (.withMessage (.withMessage e ("create topic " ++ t))
        ("find or create topic " ++ t))) := rfl

/-- The first call of a provisioning goroutine is the existence check of its topic. -/
theorem provisionTask_makes (pc : PubSubClient) (d : Int) (t : String) (ev : Event)
    (h : (provisionTask pc d t).makes ev = true) : ∃ r, ev = .topicExists (pc.Topic t) r := by
  cases ev <;>
    simp [provisionTask, FindOrCreateTopic, FindTopic, bind, Prog.bind, Prog.makes] at h
  subst h
  exact ⟨_, rfl⟩

/-- After an existence check that answered false, the next call creates the topic. -/
theorem provisionTask_missing_makes (pc : PubSubClient) (d : Int) (t : String) (ev : Event)
    (h : ((provisionTask pc d t).next (.topicExists (pc.Topic t) (.ok false))).makes ev = true) :
    ∃ r, ev = .createTopic t r := by
  cases ev <;>
    simp [provisionTask, FindOrCreateTopic, FindTopic, bind, Prog.bind, Prog.makes, Prog.next,
      pure, PubSubClient.CreateTopic] at h
  subst h
  exact ⟨_, rfl⟩

/-- A provisioning goroutine starts with a call on a collaborator. -/
theorem provisionTask_head (pc : PubSubClient) (d : Int) (t : String) :
    (provisionTask pc d t).head = .call := rfl

/-- After an existence check that answered false, a call on a collaborator follows. -/
theorem provisionTask_missing_head (pc : PubSubClient) (d : Int) (t : String) :
    ((provisionTask pc d t).next (.topicExists (pc.Topic t) (.ok false))).head = .call := rfl

/-- Every list of calls a provisioning goroutine can make has one of the shapes of
`Shape`, and what the goroutine does after these calls is what the shape says. -/
theorem provisionTask_shape (pc : PubSubClient) (d : Int) (t : String) (L : List Event)
    (h : (provisionTask pc d t).produces L = true) :
    Shape pc d t L ((provisionTask pc d t).after L).head := by
  rcases L with _ | ⟨e1, L⟩
  · exact Shape.start
  simp only [Prog.produces, Bool.and_eq_true] at h
  obtain ⟨r, rfl⟩ := provisionTask_makes pc d t e1 h.1
  have h2 := h.2
  simp only [Prog.after]
  rcases r with e | b
  · rw [provisionTask_checkFailed] at h2 ⊢
    have := ret_produces _ _ h2
    subst this
    exact Shape.checkFailed e
  cases b
  · rcases L with _ | ⟨e2, L⟩
    · exact Shape.missing
    simp only [Prog.produces, Bool.and_eq_true] at h2
    obtain ⟨r2, rfl⟩ := provisionTask_missing_makes pc d t e2 h2.1
    have h3 := h2.2
    simp only [Prog.after]
    cases r2 with
    | some e =>
      rw [provisionTask_createFailed] at h3 ⊢
      have := ret_produces _ _ h3
      subst this
      exact Shape.createFailed e
    | none =>
      rw [provisionTask_created] at h3 ⊢
      exact shape_rest pc d t [.topicExists (pc.Topic t) (.ok false), .createTopic t none]
        (Or.inr rfl) L h3
  · rw [provisionTask_found] at h2 ⊢
    exact shape_rest pc d t [.topicExists (pc.Topic t) (.ok true)] (Or.inl rfl) L h2

/-- A goroutine whose topic resolution failed returns a non-nil error. -/
theorem Shape.failed_ret {pc : PubSubClient} {d : Int} {t : String} {L : List Event}
    {r : Option Err} (h : Shape pc d t L (.ret r)) (hf : resolutionFailed L = true) :
    r ≠ none := by
  cases h with
  | checkFailed e => simp
  | createFailed e => simp
  | subscribeFailed pre hpre x e => simp
  | reported pre hpre x =>
    rcases hpre with rfl | rfl <;> simp [resolutionFailed, stages] at hf

/-- A goroutine none of whose calls failed returns nil, after resolving its topic and
going through all the stages. -/
theorem Shape.ok_ret {pc : PubSubClient} {d : Int} {t : String} {L : List Event}
    {r : Option Err} (h : Shape pc d t L (.ret r)) (hok : ∀ ev ∈ L, ev.failed = false) :
    r = none ∧ ∃ pre x, Resolved pc t pre ∧ L = pre ++ stages pc d t x none := by
  cases h with
  | checkFailed e => simp [Event.failed] at hok
  | createFailed e => simp [Event.failed] at hok
  | subscribeFailed pre hpre x e =>
    rcases hpre with rfl | rfl <;> simp [Event.failed, stages] at hok
  | reported pre hpre x => exact ⟨rfl, pre, x, hpre, rfl⟩

/-- A goroutine that has not reached its return has made at most six calls. -/
theorem Shape.length_le {pc : PubSubClient} {d : Int} {t : String} {L : List Event}
    {hd : Head} (h : Shape pc d t L hd) (hr : ∀ r, hd ≠ .ret r) : L.length ≤ 6 := by
  cases h with
  | start => simp
  | checkFailed e => exact absurd rfl (hr _)
  | missing => simp
  | createFailed e => exact absurd rfl (hr _)
  | resolved pre hpre => rcases hpre with rfl | rfl <;> simp
  | announced pre hpre x r => rcases hpre with rfl | rfl <;> simp [stages]
  | named pre hpre x r => rcases hpre with rfl | rfl <;> simp [stages]
  | subscribeFailed pre hpre x e => exact absurd rfl (hr _)
  | subscribed pre hpre x => rcases hpre with rfl | rfl <;> simp [stages]
  | sent pre hpre x => rcases hpre with rfl | rfl <;> simp [stages]
  | reported pre hpre x => exact absurd rfl (hr _)

/-- A goroutine sends at most one record, and none before it is about to send. -/
theorem Shape.sent_le {pc : PubSubClient} {d : Int} {t : String} {L : List Event}
    {hd : Head} (h : Shape pc d t L hd) :
    (L.filterMap Event.sent).length ≤ 1 ∧ (∀ x, hd = .send x → L.filterMap Event.sent = []) := by
  cases h with
  | start => simp
  | checkFailed e => simp [Event.sent]
  | missing => simp [Event.sent]
  | createFailed e => simp [Event.sent]
  | resolved pre hpre => rcases hpre with rfl | rfl <;> simp [Event.sent]
  | announced pre hpre x r => rcases hpre with rfl | rfl <;> simp [stages, Event.sent]
  | named pre hpre x r => rcases hpre with rfl | rfl <;> simp [stages, Event.sent]
  | subscribeFailed pre hpre x e => rcases hpre with rfl | rfl <;> simp [stages, Event.sent]
  | subscribed pre hpre x => rcases hpre with rfl | rfl <;> simp [stages, Event.sent]
  | sent pre hpre x => rcases hpre with rfl | rfl <;> simp [stages, Event.sent]
  | reported pre hpre x => rcases hpre with rfl | rfl <;> simp [stages, Event.sent]

/-- Every move of a goroutine is one of the moves of `Moves`. -/
theorem stepAt_moves {σ : Type} (E : Env σ) (pool : Pool σ) (i : Nat) :
    Moves E pool i (pool.stepAt E i) := by
  unfold Pool.stepAt
  rcases h : pool.tasks[i]? with _ | ⟨status, log⟩
  · exact Moves.idle (Or.inl h)
  cases status with
  | returned r => exact Moves.idle (Or.inr (Or.inl ⟨_, h, rfl⟩))
  | running p =>
    cases p with
    | ret r => exact Moves.returns log r h
    | send x k =>
      simp only
      split
      · rename_i hc
        exact Moves.sends log x k h hc
      · rename_i hc
        exact Moves.idle (Or.inr (Or.inr ⟨log, x, k, h, hc⟩))
    | topicExists t k =>
      exact Moves.calls log _ _ _ _ h (by simp [Prog.makes]) rfl rfl rfl rfl
    | createTopic t k =>
      exact Moves.calls log _ _ _ _ h (by simp [Prog.makes]) rfl rfl rfl rfl
    | xidNew k =>
      exact Moves.calls log _ _ _ _ h (by simp [Prog.makes]) rfl rfl rfl rfl
    | createSubscription n c k =>
      exact Moves.calls log _ _ _ _ h (by simp [Prog.makes]) rfl rfl rfl rfl
    | println x k =>
      exact Moves.calls log _ _ _ _ h (by simp [Prog.makes]) rfl rfl rfl rfl
    | fprintf x a k =>
      exact Moves.calls log _ _ _ _ h (by simp [Prog.makes]) rfl rfl rfl rfl
    | ack m k =>
      exact Moves.calls log _ _ _ _ h (by simp [Prog.makes]) rfl rfl rfl rfl

/-- An element other than the replaced one stays in the list. -/
theorem mem_set_of_ne {α : Type} (l : List α) (i : Nat) (a b x : α) (ha : l[i]? = some a)
    (hx : x ∈ l) : x = a ∨ x ∈ l.set i b := by
  induction l generalizing i with
  | nil => simp at ha
  | cons y ys ih =>
    cases i with
    | zero =>
      simp only [List.getElem?_cons_zero, Option.some.injEq] at ha
      subst ha
      rcases List.mem_cons.mp hx with h | h
      · exact Or.inl h
      · exact Or.inr (by simp [h])
    | succ n =>
      simp only [List.getElem?_cons_succ] at ha
      rcases List.mem_cons.mp hx with h | h
      · exact Or.inr (by simp [h])
      · rcases ih n ha h with h1 | h1
        · exact Or.inl h1
        · exact Or.inr (by simp [h1])

/-- The element put in the place of another is in the list. -/
theorem mem_set_self {α : Type} (l : List α) (i : Nat) (a b : α) (ha : l[i]? = some a) :
    b ∈ l.set i b := by
  induction l generalizing i with
  | nil => simp at ha
  | cons y ys ih =>
    cases i with
    | zero => simp
    | succ n =>
      simp only [List.getElem?_cons_succ] at ha
      simp [ih n ha]

/-- Every element of the second of two related lists has a partner in the first. -/
theorem forall₂_mem_right {α β : Type} {R : α → β → Prop} {l1 : List α} {l2 : List β}
    (h : List.Forall₂ R l1 l2) (b : β) (hb : b ∈ l2) : ∃ a ∈ l1, R a b := by
  induction h with
  | nil => simp at hb
  | cons hab _ ih =>
    rcases List.mem_cons.mp hb with h1 | h1
    · subst h1
      exact ⟨_, List.mem_cons_self _ _, hab⟩
    · obtain ⟨a, ha, hr⟩ := ih h1
      exact ⟨a, List.mem_cons_of_mem _ ha, hr⟩

/-- Starting one goroutine per element adds the length of the list to the counter of the group and leaves its error alone. -/
theorem foldl_Go {α : Type} (g : Group) (l : List α) :
    (l.foldl (fun g _ => g.Go) g).running = g.running + l.length ∧
    (l.foldl (fun g _ => g.Go) g).err = g.err := by
  induction l generalizing g with
  | nil => simp
  | cons x xs ih =>
    simp only [List.foldl_cons, List.length_cons]
    obtain ⟨h1, h2⟩ := ih g.Go
    rw [h1, h2]
    simp only [Group.Go]
    constructor
    · omega
    · trivial

/-- The shape of the calls of a goroutine whose state agrees with them. -/
theorem TaskOK.has_shape {pc : PubSubClient} {d : Int} {t : String} {task : Task}
    (h : TaskOK pc d t task) :
    Shape pc d t task.log
      (match task.status with
       | .running p => p.head
       | .returned r => .ret r) := by
  have hs := provisionTask_shape pc d t task.log h.1
  have h2 := h.2
  cases hst : task.status with
  | running p =>
    rw [hst] at h2
    simp only at h2 ⊢
    rw [h2]
    exact hs
  | returned r =>
    rw [hst] at h2
    simp only at h2 ⊢
    rw [h2] at hs
    exact hs

/-- The provisioning phase starts in a state that satisfies the invariant. -/
theorem PInv.at_pool_start {σ : Type} (pc : PubSubClient) (d : Int) (topicIDs : List String) (s : σ) :
    PInv pc d topicIDs (Pool.start pc d topicIDs s) := by
  have hrun : ∀ l : List String, (l.map fun topicID =>
      (⟨.running (provisionTask pc d topicID), []⟩ : Task)).countP (fun t => !t.returned)
      = l.length := by
    intro l
    induction l with
    | nil => rfl
    | cons x xs ih => simp [List.countP_cons, ih, Task.returned]
  have hall : ∀ l : List String, List.Forall₂ (TaskOK pc d) l (l.map fun topicID =>
      (⟨.running (provisionTask pc d topicID), []⟩ : Task)) := by
    intro l
    induction l with
    | nil => exact List.Forall₂.nil
    | cons x xs ih => exact List.Forall₂.cons ⟨rfl, rfl⟩ ih
  obtain ⟨hg1, hg2⟩ := foldl_Go Group.zero topicIDs
  refine ⟨hall topicIDs, rfl, ?_, ?_, ?_, ?_⟩
  · show (topicIDs.foldl (fun g _ => g.Go) Group.zero).running = _
    rw [hg1]
    simp only [Pool.start, hrun, Group.zero]
    omega
  · intro _ task htask r hr
    simp only [Pool.start, List.mem_map] at htask
    obtain ⟨x, _, rfl⟩ := htask
    simp [Task.result] at hr
  · intro e he
    have he2 : (topicIDs.foldl (fun g _ => g.Go) Group.zero).err = some e := he
    rw [hg2] at he2
    simp [Group.zero] at he2
  · simp only [Pool.start]
    induction topicIDs with
    | nil => simp
    | cons x xs ih => simp

/-- Every move of a goroutine keeps the invariant of the provisioning phase. -/
theorem PInv.after_move {σ : Type} {E : Env σ} {pc : PubSubClient} {d : Int}
    {topicIDs : List String} {pool pool2 : Pool σ} {i : Nat} (inv : PInv pc d topicIDs pool)
    (m : Moves E pool i pool2) :
    PInv pc d topicIDs pool2 := by
  cases m with
  | idle h => exact inv
  | returns log r h =>
    obtain ⟨t, ht, hok⟩ := forall₂_getElem? inv.tasks i _ h
    have hrun := countP_set (fun t : Task => !t.returned) pool.tasks i _ ⟨.returned r, log⟩ h
    simp only [Task.returned] at hrun
    refine ⟨forall₂_set inv.tasks i t _ ht ⟨hok.1, hok.2.symm⟩, inv.cap, ?_, ?_, ?_, ?_⟩
    · have := inv.running
      simp only [Group.done, Task.returned] at this ⊢
      simp at hrun
      omega
    · intro he task htask r2 hr2
      have hne : pool.eg.err = none := by
        simp only [Group.done] at he
        cases hx : pool.eg.err with
        | none => rfl
        | some e => rw [hx] at he; simp at he
      rcases List.mem_or_eq_of_mem_set htask with h1 | h1
      · exact inv.noErr hne task h1 r2 hr2
      · subst h1
        simp only [Task.result, Option.some.injEq] at hr2
        subst hr2
        simp only [Group.done, hne] at he
        exact he
    · intro e he
      simp only [Group.done] at he
      cases hx : pool.eg.err with
      | none =>
        rw [hx] at he
        simp only at he
        exact ⟨_, mem_set_self _ i _ _ h, by simp [Task.result, he]⟩
      | some e2 =>
        rw [hx] at he
        simp only [Option.some.injEq] at he
        subst he
        obtain ⟨task, htask, hres⟩ := inv.errFrom _ hx
        rcases mem_set_of_ne _ i _ ⟨.returned r, log⟩ _ h htask with h1 | h1
        · subst h1
          simp [Task.result] at hres
        · exact ⟨task, h1, hres⟩
    · exact inv.chan.trans
        (by simpa using (flatMap_set_perm (fun t : Task => t.log.filterMap Event.sent)
          pool.tasks i _ ⟨.returned r, log⟩ [] h (by simp)).symm)
  | sends log x k h hc =>
    obtain ⟨t, ht, hok⟩ := forall₂_getElem? inv.tasks i _ h
    have hrun := countP_set (fun t : Task => !t.returned) pool.tasks i _
      ⟨.running k, log ++ [.send x]⟩ h
    have hafter : Prog.send x k = (provisionTask pc d t).after log := hok.2
    refine ⟨forall₂_set inv.tasks i t _ ht ⟨?_, ?_⟩, inv.cap, ?_, ?_, ?_, ?_⟩
    · show (provisionTask pc d t).produces (log ++ [.send x]) = true
      rw [Prog.produces_snoc, ← hafter]
      simp [hok.1, Prog.makes]
    · show k = (provisionTask pc d t).after (log ++ [.send x])
      rw [Prog.after_snoc, ← hafter]
      rfl
    · have := inv.running
      simp only [Task.returned] at hrun this ⊢
      simp at hrun
      omega
    · intro he task htask r2 hr2
      rcases List.mem_or_eq_of_mem_set htask with h1 | h1
      · exact inv.noErr he task h1 r2 hr2
      · subst h1
        simp [Task.result] at hr2
    · intro e he
      obtain ⟨task, htask, hres⟩ := inv.errFrom _ he
      rcases mem_set_of_ne _ i _ ⟨.running k, log ++ [.send x]⟩ _ h htask with h1 | h1
      · subst h1
        simp [Task.result] at hres
      · exact ⟨task, h1, hres⟩
    · exact (inv.chan.append_right [x]).trans
        (flatMap_set_perm (fun t : Task => t.log.filterMap Event.sent)
          pool.tasks i _ ⟨.running k, log ++ [.send x]⟩ [x] h (by simp [Event.sent])).symm
  | calls log p q ev s h hm hq hs hh hstep =>
    obtain ⟨t, ht, hok⟩ := forall₂_getElem? inv.tasks i _ h
    have hrun := countP_set (fun t : Task => !t.returned) pool.tasks i _
      ⟨.running q, log ++ [ev]⟩ h
    have hafter : p = (provisionTask pc d t).after log := hok.2
    refine ⟨forall₂_set inv.tasks i t _ ht ⟨?_, ?_⟩, inv.cap, ?_, ?_, ?_, ?_⟩
    · show (provisionTask pc d t).produces (log ++ [ev]) = true
      rw [Prog.produces_snoc, ← hafter]
      simp [hok.1, hm]
    · show q = (provisionTask pc d t).after (log ++ [ev])
      rw [Prog.after_snoc, ← hafter]
      exact hq
    · have := inv.running
      simp only [Task.returned] at hrun this ⊢
      simp at hrun
      omega
    · intro he task htask r2 hr2
      rcases List.mem_or_eq_of_mem_set htask with h1 | h1
      · exact inv.noErr he task h1 r2 hr2
      · subst h1
        simp [Task.result] at hr2
    · intro e he
      obtain ⟨task, htask, hres⟩ := inv.errFrom _ he
      rcases mem_set_of_ne _ i _ ⟨.running q, log ++ [ev]⟩ _ h htask with h1 | h1
      · subst h1
        simp [Task.result] at hres
      · exact ⟨task, h1, hres⟩
    · exact inv.chan.trans
        (by simpa using (flatMap_set_perm (fun t : Task => t.log.filterMap Event.sent)
          pool.tasks i _ ⟨.running q, log ++ [ev]⟩ [] h (by simp [hs])).symm)

/-- The invariant of the provisioning phase holds after every schedule. -/
theorem PInv.after_sched {σ : Type} (E : Env σ) {pc : PubSubClient} {d : Int}
    {topicIDs : List String} (sched : List Nat) {pool : Pool σ}
    (inv : PInv pc d topicIDs pool) : PInv pc d topicIDs (pool.runSched E sched) := by
  induction sched generalizing pool with
  | nil => exact inv
  | cons i is ih => exact ih (inv.after_move (stepAt_moves E pool i))

/-- A goroutine about to send finds room in the channel. -/
theorem PInv.room {σ : Type} {pc : PubSubClient} {d : Int} {topicIDs : List String}
    {pool : Pool σ} (inv : PInv pc d topicIDs pool) (i : Nat) (log : List Event)
    (x : subscriber) (k : Prog (Option Err))
    (h : pool.tasks[i]? = some ⟨.running (.send x k), log⟩) :
    pool.subscribers.length < pool.cap := by
  obtain ⟨t, _, hok⟩ := forall₂_getElem? inv.tasks i _ h
  have h0 : (⟨.running (.send x k), log⟩ : Task).log.filterMap Event.sent = [] :=
    (hok.has_shape.sent_le).2 x rfl
  have hall : ∀ task ∈ pool.tasks, (task.log.filterMap Event.sent).length ≤ 1 := by
    intro task htask
    obtain ⟨u, _, hu⟩ := forall₂_mem_right inv.tasks task htask
    exact (hu.has_shape.sent_le).1
  have hlt := flatMap_length_lt (fun t : Task => t.log.filterMap Event.sent) pool.tasks i _ h
    h0 hall
  rw [inv.chan.length_eq, inv.cap, inv.tasks.length_eq]
  exact hlt

/-- The ranks after the state of goroutine `i` is replaced. -/
theorem rankAt_set {σ : Type} (pool : Pool σ) (i j : Nat) (a b : Task) (env : σ) (eg : Group)
    (subs : List subscriber) (ha : pool.tasks[i]? = some a) :
    Pool.rankAt { env := env, tasks := pool.tasks.set i b, eg := eg, subscribers := subs,
                  cap := pool.cap } j = if i = j then b.rank else pool.rankAt j := by
  have hi : i < pool.tasks.length := by
    rcases Nat.lt_or_ge i pool.tasks.length with h | h
    · exact h
    · rw [List.getElem?_eq_none h] at ha
      cases ha
  simp only [Pool.rankAt, List.getElem?_set]
  by_cases hij : i = j
  · subst hij
    simp [hi]
  · simp [hij]

/-- A move of goroutine `i` raises the rank of no goroutine, and lowers the rank of
goroutine `i` unless it is 0. -/
theorem PInv.rank_move {σ : Type} {E : Env σ} {pc : PubSubClient} {d : Int}
    {topicIDs : List String} {pool pool2 : Pool σ} {i : Nat} (inv : PInv pc d topicIDs pool)
    (m : Moves E pool i pool2) :
    (∀ j, pool2.rankAt j ≤ pool.rankAt j) ∧ (pool2.rankAt i < pool.rankAt i ∨ pool.rankAt i = 0) := by
  cases m with
  | idle h =>
    refine ⟨fun j => le_refl _, Or.inr ?_⟩
    rcases h with h | ⟨task, h, hr⟩ | ⟨log, x, k, h, hc⟩
    · simp [Pool.rankAt, h]
    · simp only [Pool.rankAt, h, Task.rank]
      cases hs : task.status with
      | returned r => rfl
      | running p => simp [Task.returned, hs] at hr
    · exact absurd (inv.room i log x k h) hc
  | returns log r h =>
    have hold : pool.rankAt i = 1 := by simp [Pool.rankAt, h, Task.rank, Prog.head]
    have hnew := fun j => rankAt_set pool i j _ ⟨.returned r, log⟩ pool.env (pool.eg.done r)
      pool.subscribers h
    constructor
    · intro j
      rw [hnew j]
      by_cases hij : i = j
      · subst hij
        simp [Task.rank]
      · simp [hij]
    · left
      rw [hnew i, hold]
      simp [Task.rank]
  | sends log x k h hc =>
    obtain ⟨t, _, hok⟩ := forall₂_getElem? inv.tasks i _ h
    have hlen : log.length ≤ 6 := hok.has_shape.length_le (by intro r hr; cases hr)
    have hold : pool.rankAt i = 8 - log.length := by simp [Pool.rankAt, h, Task.rank, Prog.head]
    have hnew := fun j => rankAt_set pool i j _ ⟨.running k, log ++ [.send x]⟩ pool.env pool.eg
      (pool.subscribers ++ [x]) h
    have hb : (⟨.running k, log ++ [.send x]⟩ : Task).rank < 8 - log.length := by
      simp only [Task.rank, List.length_append, List.length_singleton]
      split <;> omega
    constructor
    · intro j
      rw [hnew j]
      by_cases hij : i = j
      · subst hij
        simp only [if_true]
        omega
      · simp [hij]
    · left
      rw [hnew i, hold]
      simpa using hb
  | calls log p q ev s h hm hq hs hh hstep =>
    obtain ⟨t, _, hok⟩ := forall₂_getElem? inv.tasks i _ h
    have hlen : log.length ≤ 6 := hok.has_shape.length_le (by
      intro r hr
      simp only [hh] at hr
      cases hr)
    have hold : pool.rankAt i = 8 - log.length := by simp [Pool.rankAt, h, Task.rank, hh]
    have hnew := fun j => rankAt_set pool i j _ ⟨.running q, log ++ [ev]⟩ s pool.eg
      pool.subscribers h
    have hb : (⟨.running q, log ++ [ev]⟩ : Task).rank < 8 - log.length := by
      simp only [Task.rank, List.length_append, List.length_singleton]
      split <;> omega
    constructor
    · intro j
      rw [hnew j]
      by_cases hij : i = j
      · subst hij
        simp only [if_true]
        omega
      · simp [hij]
    · left
      rw [hnew i, hold]
      simpa using hb

/-- No rank exceeds 8. -/
theorem rankAt_le {σ : Type} (pool : Pool σ) (j : Nat) : pool.rankAt j ≤ 8 := by
  simp only [Pool.rankAt]
  split
  · rename_i task _
    simp only [Task.rank]
    split
    · omega
    · split <;> omega
  · omega

/-- A schedule raises the rank of no goroutine. -/
theorem PInv.rank_runSched {σ : Type} (E : Env σ) {pc : PubSubClient} {d : Int}
    {topicIDs : List String} (sched : List Nat) {pool : Pool σ}
    (inv : PInv pc d topicIDs pool) (j : Nat) :
    (pool.runSched E sched).rankAt j ≤ pool.rankAt j := by
  induction sched generalizing pool with
  | nil => exact le_refl _
  | cons i is ih =>
    have m := stepAt_moves E pool i
    exact le_trans (ih (inv.after_move m)) ((inv.rank_move m).1 j)

/-- As many moves as its rank bring a goroutine to rank 0. -/
theorem PInv.rank_replicate {σ : Type} (E : Env σ) {pc : PubSubClient} {d : Int}
    {topicIDs : List String} (n i : Nat) {pool : Pool σ}
    (inv : PInv pc d topicIDs pool) (h : pool.rankAt i ≤ n) :
    (pool.runSched E (List.replicate n i)).rankAt i = 0 := by
  induction n generalizing pool with
  | zero => simpa [Pool.runSched] using h
  | succ n ih =>
    have m := stepAt_moves E pool i
    have hstep := (inv.rank_move m).2
    have hle := (inv.rank_move m).1 i
    exact ih (inv.after_move m) (by omega)

/-- Running two schedules one after the other. -/
theorem runSched_append {σ : Type} (E : Env σ) (pool : Pool σ) (a b : List Nat) :
    pool.runSched E (a ++ b) = (pool.runSched E a).runSched E b := by
  simp [Pool.runSched, List.foldl_append]

/-- After the completing schedule every goroutine it names has rank 0. -/
theorem PInv.rank_completion {σ : Type} (E : Env σ) {pc : PubSubClient} {d : Int}
    {topicIDs : List String} (is : List Nat) {pool : Pool σ}
    (inv : PInv pc d topicIDs pool) (j : Nat) (hj : j ∈ is) :
    (pool.runSched E (is.flatMap fun i => List.replicate 8 i)).rankAt j = 0 := by
  induction is generalizing pool with
  | nil => simp at hj
  | cons i is ih =>
    simp only [List.flatMap_cons, runSched_append]
    have inv2 : PInv pc d topicIDs (pool.runSched E (List.replicate 8 i)) := inv.after_sched E _
    rcases List.mem_cons.mp hj with h | h
    · subst h
      have h0 := inv.rank_replicate E 8 j (rankAt_le pool j)
      have := inv2.rank_runSched E (is.flatMap fun i => List.replicate 8 i) j
      omega
    · exact ih inv2 h

/-- Taking the characters before the first `/` stops at a `/`, whatever follows it. -/
theorem takeWhile_slash (L R : List Char) :
    (L ++ '/' :: R).takeWhile (fun c => c != '/') = L.takeWhile (fun c => c != '/') := by
  induction L with
  | nil => simp
  | cons c cs ih =>
    simp only [List.cons_append, List.takeWhile_cons]
    split
    · rw [ih]
    · rfl

/-- The text after the last `/` of a name that ends with `/` followed by a text is the
text after the last `/` of that text, the whole text when it holds no `/`. -/
theorem afterLastSlash_append (a b : String) :
    afterLastSlash (a ++ "/" ++ b) = afterLastSlash b := by
  simp only [afterLastSlash, String.data_append, List.reverse_append]
  congr 2
  rw [List.reverse_singleton, List.singleton_append, takeWhile_slash]

/-- The identifier of a topic handle is the text after the last `/` of the identifier the
handle was made from. -/
theorem Topic_ID_of (pc : PubSubClient) (id : String) :
    (pc.Topic id).ID = afterLastSlash id := by
  have h : (pc.Topic id).name = ("projects/" ++ pc.projectID ++ "/topic" ++ "s") ++ "/" ++ id := by
    simp only [Topic.name, PubSubClient.Topic, String.append_assoc]
    rfl
  rw [Topic.ID, h, afterLastSlash_append]

/-- The identifier of the topic handle of `x/y` is `y`, that of `orders` is `orders`. -/
theorem Topic_ID_examples :
    (PubSubClient.Topic ⟨"p"⟩ "x/y").ID = "y" ∧ (PubSubClient.Topic ⟨"p"⟩ "orders").ID = "orders" := by
  decide

/-- Appending to a fixed string is injective. -/
theorem append_left_cancel (p a b : String) (h : p ++ a = p ++ b) : a = b := by
  have h1 := congrArg String.data h
  simp only [String.data_append] at h1
  exact String.ext (List.append_cancel_left h1)

/-- What a call of `FindOrCreateTopic` returns, the state it leaves and the calls it
makes, by the answers of the service. -/
theorem FindOrCreateTopic_run {σ : Type} (E : Env σ) (pc : PubSubClient) (t : String) (s : σ) :
    (FindOrCreateTopic pc t).run E s =
      match (E.topicExists s (pc.Topic t)).1 with
      | .error e => (.error (Err.withMessage e ("find topic " ++ t)), (E.topicExists s (pc.Topic t)).2,
          [Event.topicExists (pc.Topic t) (.error e)])
      | .ok true => (.ok (pc.Topic t), (E.topicExists s (pc.Topic t)).2,
          [Event.topicExists (pc.Topic t) (.ok true)])
      | .ok false =>
        match (E.createTopic (E.topicExists s (pc.Topic t)).2 t).1 with
        | some e => (.error (Err.withMessage e ("create topic " ++ t)),
            (E.createTopic (E.topicExists s (pc.Topic t)).2 t).2,
            [Event.topicExists (pc.Topic t) (.ok false), Event.createTopic t (some e)])
        | none => (.ok (pc.Topic t), (E.createTopic (E.topicExists s (pc.Topic t)).2 t).2,
            [Event.topicExists (pc.Topic t) (.ok false), Event.createTopic t none]) := by
  simp only [FindOrCreateTopic, FindTopic, bind, Prog.bind, Prog.run]
  rcases h : (E.topicExists s (pc.Topic t)).1 with e | b
  · simp [pure, Prog.bind, Prog.run]
  · cases b
    · simp only [pure, Prog.bind, PubSubClient.CreateTopic, Prog.run]
      rcases h2 : (E.createTopic (E.topicExists s (pc.Topic t)).2 t).1 with _ | e
      · simp [Prog.bind, Prog.run]
      · simp [Prog.bind, Prog.run]
    · simp [pure, Prog.bind, Prog.run]

/-- What a call of `CreateUniqueSubscription` returns, the state it leaves and the calls
it makes, by the answers of the collaborators. -/
theorem CreateUniqueSubscription_run {σ : Type} (E : Env σ) (pc : PubSubClient) (topic : Topic)
    (d : Int) (s : σ) :
    (CreateUniqueSubscription pc topic d).run E s =
      ((match (E.createSubscription (E.xidNew s).2 ("pubsub_cli_" ++ (E.xidNew s).1)
            (uniqueConfig topic d)).1 with
        | none => .ok (pc.Subscription ("pubsub_cli_" ++ (E.xidNew s).1))
        | some e => .error e),
       (E.createSubscription (E.xidNew s).2 ("pubsub_cli_" ++ (E.xidNew s).1)
          (uniqueConfig topic d)).2,
       [Event.xidNew (E.xidNew s).1,
        Event.createSubscription ("pubsub_cli_" ++ (E.xidNew s).1) (uniqueConfig topic d)
          (E.createSubscription (E.xidNew s).2 ("pubsub_cli_" ++ (E.xidNew s).1)
            (uniqueConfig topic d)).1]) := by
  simp only [CreateUniqueSubscription, xidNewString, PubSubClient.CreateSubscription, bind,
    Prog.bind, Prog.run, uniqueConfig]
  rcases h : (E.createSubscription (E.xidNew s).2 ("pubsub_cli_" ++ (E.xidNew s).1)
      { Topic := topic, AckDeadline := d, ExpirationPolicy := 24 * Hour,
        Labels := [("created_by", "pubsub_cli")] }).1 with _ | e
  · simp [pure, Prog.bind, Prog.run]
  · simp [pure, Prog.bind, Prog.run]

/-- The invariant holds when the provisioning phase ends. -/
theorem provision_inv {σ : Type} (E : Env σ) (pc : PubSubClient) (d : Int)
    (topicIDs : List String) (sched : List Nat) (s : σ) :
    PInv pc d topicIDs (provision E pc d topicIDs sched s) :=
  (PInv.at_pool_start pc d topicIDs s).after_sched E _

/-- A goroutine of rank 0 has returned. -/
theorem TaskOK.returned_of_rank {pc : PubSubClient} {d : Int} {t : String} {task : Task}
    (h : TaskOK pc d t task) (h0 : task.rank = 0) : task.returned = true := by
  have hs := h.has_shape
  cases hst : task.status with
  | returned r => simp [Task.returned, hst]
  | running p =>
    rw [hst] at hs
    simp only at hs
    simp only [Task.rank, hst] at h0
    cases hp : p.head with
    | ret r => simp [hp] at h0
    | send x =>
      have := hs.length_le (by intro r hr; rw [hp] at hr; cases hr)
      simp only [hp] at h0
      omega
    | call =>
      have := hs.length_le (by intro r hr; rw [hp] at hr; cases hr)
      simp only [hp] at h0
      omega

/-- The provisioning phase ends, whatever the schedule: every goroutine returns. -/
theorem provision_returned {σ : Type} (E : Env σ) (pc : PubSubClient) (d : Int)
    (topicIDs : List String) (sched : List Nat) (s : σ) :
    ∀ task ∈ (provision E pc d topicIDs sched s).tasks, task.returned = true := by
  intro task htask
  have inv := provision_inv E pc d topicIDs sched s
  obtain ⟨j, hj⟩ := List.getElem?_of_mem htask
  obtain ⟨t, _, hok⟩ := forall₂_getElem? inv.tasks j task hj
  have hlt : j < topicIDs.length := by
    rw [inv.tasks.length_eq]
    rcases Nat.lt_or_ge j (provision E pc d topicIDs sched s).tasks.length with h | h
    · exact h
    · rw [List.getElem?_eq_none h] at hj
      cases hj
  have hrank : (provision E pc d topicIDs sched s).rankAt j = 0 := by
    unfold provision
    rw [runSched_append]
    exact ((PInv.at_pool_start pc d topicIDs s).after_sched E sched).rank_completion E
      (List.range topicIDs.length) j (List.mem_range.mpr hlt)
  simp only [Pool.rankAt, hj] at hrank
  exact hok.returned_of_rank hrank

/-- The first `eg.Wait()` of `subscribe` returns, whatever the schedule. -/
theorem provision_wait {σ : Type} (E : Env σ) (pc : PubSubClient) (d : Int)
    (topicIDs : List String) (sched : List Nat) (s : σ) :
    (provision E pc d topicIDs sched s).eg.Wait = some (provision E pc d topicIDs sched s).eg.err := by
  have inv := provision_inv E pc d topicIDs sched s
  have hall := provision_returned E pc d topicIDs sched s
  have h0 : (provision E pc d topicIDs sched s).eg.running = 0 := by
    rw [inv.running, List.countP_eq_zero]
    intro task htask
    simp [hall task htask]
  simp [Group.Wait, h0]

/-- The value a goroutine has returned, by the calls it has made. -/
theorem provision_result {σ : Type} (E : Env σ) (pc : PubSubClient) (d : Int)
    (topicIDs : List String) (sched : List Nat) (s : σ) (task : Task)
    (htask : task ∈ (provision E pc d topicIDs sched s).tasks) :
    ∃ t ∈ topicIDs, ∃ r, task.result = some r ∧ Shape pc d t task.log (.ret r) := by
  have inv := provision_inv E pc d topicIDs sched s
  obtain ⟨t, ht, hok⟩ := forall₂_mem_right inv.tasks task htask
  have hret := provision_returned E pc d topicIDs sched s task htask
  have hs := hok.has_shape
  cases hst : task.status with
  | running p => simp [Task.returned, hst] at hret
  | returned r =>
    rw [hst] at hs
    exact ⟨t, ht, r, by simp [Task.result, hst], hs⟩

/-- The listening phase after one more move of the service. -/
theorem Listen.run_snoc {σ : Type} (E : Env σ) (l : Listen σ) (ds : List Delivery)
    (dv : Delivery) : l.run E (ds ++ [dv]) = (l.run E ds).step E dv := by
  simp [Listen.run, List.foldl_append]

/-- When `subscribe` enters the listening phase, its first wait has returned nil, and its result is that of its second wait. -/
theorem subscribe_listening {σ : Type} (E : Env σ) (pc : PubSubClient) (d : Int)
    (topicIDs : List String) (sched : List Nat) (ds : List Delivery) (s : σ)
    (h : (subscribe E pc d topicIDs sched ds s).listening.isSome = true) :
    (provision E pc d topicIDs sched s).eg.Wait = some none ∧
    (subscribe E pc d topicIDs sched ds s).listening = some
      ((Listen.start (provision E pc d topicIDs sched s).env
        (provision E pc d topicIDs sched s).eg
        (provision E pc d topicIDs sched s).subscribers).run E ds) ∧
    (subscribe E pc d topicIDs sched ds s).result =
      ((Listen.start (provision E pc d topicIDs sched s).env
        (provision E pc d topicIDs sched s).eg
        (provision E pc d topicIDs sched s).subscribers).run E ds).eg.Wait := by
  rcases hw : (provision E pc d topicIDs sched s).eg.Wait with _ | _ | e
  · simp [subscribe, hw] at h
  · simp [subscribe, hw]
  · simp [subscribe, hw] at h

/-- The listening phase after two runs of moves. -/
theorem Listen.run_append {σ : Type} (E : Env σ) (l : Listen σ) (a b : List Delivery) :
    l.run E (a ++ b) = (l.run E a).run E b := by
  simp [Listen.run, List.foldl_append]

/-- When the first wait of `subscribe` returns nil, the listening phase is entered,
whatever happens in it. -/
theorem subscribe_entered {σ : Type} (E : Env σ) (pc : PubSubClient) (d : Int)
    (topicIDs : List String) (sched : List Nat) (s : σ)
    (hw : (provision E pc d topicIDs sched s).eg.Wait = some none) (ds : List Delivery) :
    (subscribe E pc d topicIDs sched ds s).listening = some
      ((Listen.start (provision E pc d topicIDs sched s).env
        (provision E pc d topicIDs sched s).eg
        (provision E pc d topicIDs sched s).subscribers).run E ds) := by
  simp [subscribe, hw]

/-- A move of the listening phase keeps the invariant of the callbacks. -/
theorem CInv.after_listen_step {σ : Type} (E : Env σ) {l : Listen σ} (inv : CInv l)
    (dv : Delivery) : CInv (l.step E dv) := by
  cases dv with
  | deliver i msg =>
    simp only [Listen.step]
    split
    · rename_i x hx
      unfold CInv
      intro j cb hj
      simp only at hj
      rcases Nat.lt_or_ge j l.callbacks.length with hlt | hge
      · rw [List.getElem?_append_left hlt] at hj
        exact inv j cb hj
      · rw [List.getElem?_append_right hge] at hj
        rcases hjj : j - l.callbacks.length with _ | m
        · rw [hjj] at hj
          simp only [List.getElem?_cons_zero, Option.some.injEq] at hj
          subst hj
          exact ⟨Or.inl ⟨rfl, rfl⟩, List.nil_sublist _⟩
        · rw [hjj] at hj
          simp at hj
    · exact inv
  | callbackMoves j =>
    simp only [Listen.step]
    split
    · rename_i cb hcb
      split
      · rename_i ev q s hstep
        unfold CInv
        intro k cb2 hk
        simp only [List.getElem?_set] at hk
        obtain ⟨hok, hsub⟩ := inv j cb hcb
        by_cases hjk : j = k
        · subst hjk
          have hlt : j < l.callbacks.length := by
            rcases Nat.lt_or_ge j l.callbacks.length with h | h
            · exact h
            · rw [List.getElem?_eq_none h] at hcb
              cases hcb
          simp only [hlt, if_true, Option.some.injEq] at hk
          subst hk
          refine ⟨?_, ?_⟩
          · rcases hok with ⟨hl, hr⟩ | ⟨hl, hr⟩ | ⟨hl, hr⟩
            · rw [hr] at hstep
              simp only [handler, bind, Prog.bind, Prog.step, Option.some.injEq, Prod.mk.injEq,
                pure] at hstep
              obtain ⟨rfl, rfl, rfl⟩ := hstep
              exact Or.inr (Or.inl ⟨by simp [hl], rfl⟩)
            · rw [hr] at hstep
              simp only [handler, bind, Prog.bind, Prog.step, Prog.next, Option.some.injEq,
                Prod.mk.injEq, pure] at hstep
              obtain ⟨rfl, rfl, rfl⟩ := hstep
              exact Or.inr (Or.inr ⟨by simp [hl, gotMessage], rfl⟩)
            · rw [hr] at hstep
              simp [Prog.step] at hstep
          · exact List.Sublist.append hsub (List.Sublist.refl _)
        · simp only [hjk, if_false] at hk
          obtain ⟨hok2, hsub2⟩ := inv k cb2 hk
          exact ⟨hok2, hsub2.trans (List.sublist_append_left _ _)⟩
      · exact inv
    · exact inv
  | receiveReturns i err =>
    simp only [Listen.step]
    split
    · exact fun j cb hj => inv j cb hj
    · exact inv

/-- The moves of the listening phase keep the invariant of the callbacks. -/
theorem CInv.after_listen_run {σ : Type} (E : Env σ) (ds : List Delivery) {l : Listen σ}
    (inv : CInv l) : CInv (l.run E ds) := by
  induction ds generalizing l with
  | nil => exact inv
  | cons dv ds ih => exact ih (inv.after_listen_step E dv)

/-- A move of the listening phase keeps the callbacks there are, each with its subscriber
and its message. -/
theorem Listen.step_callback {σ : Type} (E : Env σ) (l : Listen σ) (dv : Delivery) (j : Nat)
    (cb : Callback) (h : l.callbacks[j]? = some cb) :
    ∃ cb2, (l.step E dv).callbacks[j]? = some cb2 ∧ cb2.s = cb.s ∧ cb2.msg = cb.msg := by
  have hlt : j < l.callbacks.length := by
    rcases Nat.lt_or_ge j l.callbacks.length with h1 | h1
    · exact h1
    · rw [List.getElem?_eq_none h1] at h
      cases h
  cases dv with
  | deliver i msg =>
    simp only [Listen.step]
    split
    · exact ⟨cb, by simp [List.getElem?_append_left hlt, h], rfl, rfl⟩
    · exact ⟨cb, h, rfl, rfl⟩
  | callbackMoves k =>
    simp only [Listen.step]
    split
    · rename_i cb1 hcb1
      split
      · by_cases hkj : k = j
        · subst hkj
          rw [h] at hcb1
          cases hcb1
          rename_i ev q s2 _
          refine ⟨⟨cb.s, cb.msg, q, cb.log ++ [ev]⟩, ?_, rfl, rfl⟩
          simp only [List.getElem?_set, hlt, if_true]
        · exact ⟨cb, by simp [List.getElem?_set, hkj, h], rfl, rfl⟩
      · exact ⟨cb, h, rfl, rfl⟩
    · exact ⟨cb, h, rfl, rfl⟩
  | receiveReturns i err =>
    simp only [Listen.step]
    split
    · exact ⟨cb, h, rfl, rfl⟩
    · exact ⟨cb, h, rfl, rfl⟩

/-- The moves of the listening phase keep the callbacks there are, each with its
subscriber and its message. -/
theorem Listen.run_callback {σ : Type} (E : Env σ) (ds : List Delivery) (l : Listen σ)
    (j : Nat) (cb : Callback) (h : l.callbacks[j]? = some cb) :
    ∃ cb2, (l.run E ds).callbacks[j]? = some cb2 ∧ cb2.s = cb.s ∧ cb2.msg = cb.msg := by
  induction ds generalizing l cb with
  | nil => exact ⟨cb, h, rfl, rfl⟩
  | cons dv ds ih =>
    obtain ⟨cb1, h1, hs1, hm1⟩ := l.step_callback E dv j cb h
    obtain ⟨cb2, h2, hs2, hm2⟩ := ih (l.step E dv) cb1 h1
    exact ⟨cb2, h2, hs2.trans hs1, hm2.trans hm1⟩

/-- A callback that is given two moves has made both its calls. -/
theorem Listen.callback_completes {σ : Type} (E : Env σ) (l : Listen σ) (j : Nat)
    (cb : Callback) (h : l.callbacks[j]? = some cb) (hok : cb.OK) :
    ∃ cb2, (l.run E [.callbackMoves j, .callbackMoves j]).callbacks[j]? = some cb2 ∧
      cb2.log = [.ack cb.msg, gotMessage cb.s cb.msg] := by
  have hlt : j < l.callbacks.length := by
    rcases Nat.lt_or_ge j l.callbacks.length with h1 | h1
    · exact h1
    · rw [List.getElem?_eq_none h1] at h
      cases h
  obtain ⟨s, msg, rest, log⟩ := cb
  rcases hok with ⟨hl, hr⟩ | ⟨hl, hr⟩ | ⟨hl, hr⟩
  · simp only at hl hr
    subst hl hr
    refine ⟨⟨s, msg, .ret (), [.ack msg, gotMessage s msg]⟩, ?_, rfl⟩
    simp [Listen.run, Listen.step, h, handler, bind, Prog.bind, Prog.step, pure,
      List.getElem?_set, hlt, gotMessage]
  · simp only at hl hr
    subst hl hr
    refine ⟨⟨s, msg, .ret (), [.ack msg, gotMessage s msg]⟩, ?_, rfl⟩
    simp [Listen.run, Listen.step, h, handler, bind, Prog.bind, Prog.step, Prog.next, pure,
      List.getElem?_set, hlt, gotMessage]
  · simp only at hl hr
    subst hl hr
    refine ⟨⟨s, msg, .ret (), [.ack msg, gotMessage s msg]⟩, ?_, rfl⟩
    simp [Listen.run, Listen.step, h, Prog.step]

/-- The listening phase starts with no callback. -/
theorem CInv.at_callback_start {σ : Type} (s : σ) (eg : Group) (subs : List subscriber) :
    CInv (Listen.start s eg subs) := by
  intro j cb hj
  simp [Listen.start] at hj

/-- The first error of a list of results extended by one result. -/
theorem firstError_snoc (rs : List (Option Err)) (r : Option Err) :
    firstError (rs ++ [r]) = (match firstError rs with
      | some e => some e
      | none => r) := by
  simp only [firstError, List.filterMap_append]
  cases h : rs.filterMap id with
  | nil => cases r <;> simp
  | cons x xs => simp

/-- There is no first error exactly when every result is nil. -/
theorem firstError_eq_none (rs : List (Option Err)) :
    firstError rs = none ↔ ∀ r ∈ rs, r = none := by
  induction rs with
  | nil => simp [firstError]
  | cons x xs ih =>
    cases x with
    | none =>
      simp only [firstError, List.filterMap_cons, id] at ih ⊢
      simp [ih]
    | some e => simp [firstError]

/-- The listening phase starts in a state that satisfies its invariant. -/
theorem LInv.at_listen_start {σ : Type} (s : σ) (eg : Group) (subs : List subscriber)
    (h0 : eg.running = 0) (h1 : eg.err = none) : LInv (Listen.start s eg subs) := by
  obtain ⟨hg1, hg2⟩ := foldl_Go eg subs
  have hc : ∀ l : List subscriber,
      (l.map fun x => (⟨x, none⟩ : Loop)).countP (fun lp => lp.returned.isNone) = l.length := by
    intro l
    induction l with
    | nil => rfl
    | cons x xs ih => simp [List.countP_cons, ih]
  have hf : ∀ l : List subscriber, ((l.map fun x => (⟨x, none⟩ : Loop)).flatMap fun lp =>
      match lp.returned with
      | none => []
      | some err => [receiveResult lp.s err]) = [] := by
    intro l
    induction l with
    | nil => rfl
    | cons x xs ih => simp
  refine ⟨?_, ?_, ?_⟩
  · show (subs.foldl (fun g _ => g.Go) eg).running = _
    rw [hg1, h0]
    simp only [Listen.start, hc]
    omega
  · show (subs.foldl (fun g _ => g.Go) eg).err = _
    rw [hg2, h1]
    rfl
  · simp only [Listen.start, hf]
    exact List.Perm.refl _

/-- Every move of the service keeps the invariant of the listening phase. -/
theorem LInv.after_step {σ : Type} (E : Env σ) {l : Listen σ} (inv : LInv l) (dv : Delivery) :
    LInv (l.step E dv) := by
  cases dv with
  | deliver i msg =>
    simp only [Listen.step]
    split
    · exact ⟨inv.running, inv.err, inv.results⟩
    · exact inv
  | callbackMoves j =>
    simp only [Listen.step]
    split
    · split
      · exact ⟨inv.running, inv.err, inv.results⟩
      · exact inv
    · exact inv
  | receiveReturns i err =>
    simp only [Listen.step]
    split
    · rename_i x hx
      have hrun := countP_set (fun lp : Loop => lp.returned.isNone) l.loops i _ ⟨x, some err⟩ hx
      refine ⟨?_, ?_, ?_⟩
      · have := inv.running
        simp only [Group.done] at this ⊢
        simp at hrun
        omega
      · simp only [Group.done, firstError_snoc, inv.err]
      · exact (inv.results.append_right [receiveResult x err]).trans
          (flatMap_set_perm (fun lp : Loop => match lp.returned with
              | none => []
              | some err => [receiveResult lp.s err]) l.loops i _ ⟨x, some err⟩
            [receiveResult x err] hx (by simp)).symm
    · exact inv

/-- The invariant of the listening phase holds after all moves of the service. -/
theorem LInv.after_run {σ : Type} (E : Env σ) (ds : List Delivery) {l : Listen σ} (inv : LInv l) :
    LInv (l.run E ds) := by
  induction ds generalizing l with
  | nil => exact inv
  | cons dv ds ih => exact ih (inv.after_step E dv)

/-- A receive loop returns nil exactly when its `Receive` returned nil. -/
theorem receiveResult_eq_none (x : subscriber) (err : Option Err) :
    receiveResult x err = none ↔ err = none := by
  cases err <;> simp [receiveResult, Wrapf]

/-- The result of a receive loop, written out. -/
theorem receiveResult_cases :
    (fun lp : Loop =>
      match lp.returned with
      | none => []
      | some err => [receiveResult lp.s err]) =
    fun lp : Loop =>
      match lp.returned with
      | none => []
      | some none => [none]
      | some (some e) => [some (Err.withMessage e ("receive message published to " ++
          lp.s.topic.ID ++ " through " ++ lp.s.sub.ID ++ " subscription"))] := by
  funext lp
  rcases lp.returned with _ | _ | e <;> rfl

/-- Replacing an element by one with the same image keeps the images. -/
theorem map_set_same {α β : Type} (f : α → β) (l : List α) (i : Nat) (a b : α)
    (ha : l[i]? = some a) (hf : f b = f a) : (l.set i b).map f = l.map f := by
  induction l generalizing i with
  | nil => simp at ha
  | cons y ys ih =>
    cases i with
    | zero =>
      simp only [List.getElem?_cons_zero, Option.some.injEq] at ha
      subst ha
      simp [hf]
    | succ n =>
      simp only [List.getElem?_cons_succ] at ha
      simp [ih n ha]

/-- A move of the service leaves the subscribers of the loops as they are. -/
theorem Listen.step_subscribers {σ : Type} (E : Env σ) (l : Listen σ) (dv : Delivery) :
    (l.step E dv).loops.map Loop.s = l.loops.map Loop.s := by
  cases dv with
  | deliver i msg =>
    simp only [Listen.step]
    split <;> rfl
  | callbackMoves j =>
    simp only [Listen.step]
    split
    · split <;> rfl
    · rfl
  | receiveReturns i err =>
    simp only [Listen.step]
    split
    · rename_i x hx
      exact map_set_same Loop.s l.loops i _ _ hx rfl
    · rfl

/-- The moves of the service leave the subscribers of the loops as they are. -/
theorem Listen.run_subscribers {σ : Type} (E : Env σ) (ds : List Delivery) (l : Listen σ) :
    (l.run E ds).loops.map Loop.s = l.loops.map Loop.s := by
  induction ds generalizing l with
  | nil => rfl
  | cons dv ds ih => exact (ih (l.step E dv)).trans (l.step_subscribers E dv)

/-- The records handed to the listening phase are those in the channel. -/
theorem subscribe_handedOver {σ : Type} (E : Env σ) (pc : PubSubClient) (d : Int)
    (topicIDs : List String) (sched : List Nat) (ds : List Delivery) (s : σ)
    (h : (subscribe E pc d topicIDs sched ds s).listening.isSome = true) :
    (subscribe E pc d topicIDs sched ds s).handedOver =
      (provision E pc d topicIDs sched s).subscribers := by
  obtain ⟨_, hl, _⟩ := subscribe_listening E pc d topicIDs sched ds s h
  simp only [Outcome.handedOver, hl]
  rw [show (fun x : Loop => x.s) = Loop.s from rfl, Listen.run_subscribers]
  simp [Listen.start, Function.comp_def]

/-- A relation between two lists can be weakened element by element. -/
theorem forall₂_imp_mem {α β : Type} {R S : α → β → Prop} {l1 : List α} {l2 : List β}
    (h : List.Forall₂ R l1 l2) (himp : ∀ a b, b ∈ l2 → R a b → S a b) :
    List.Forall₂ S l1 l2 := by
  induction h with
  | nil => exact List.Forall₂.nil
  | cons hab _ ih =>
    exact List.Forall₂.cons (himp _ _ (List.mem_cons_self _ _) hab)
      (ih fun a b hb hr => himp a b (List.mem_cons_of_mem _ hb) hr)

/-- When no call of the provisioning phase fails, every goroutine resolves its topic and
goes through all the stages, and the group holds no error. -/
theorem provision_all_ok {σ : Type} (E : Env σ) (pc : PubSubClient) (d : Int)
    (topicIDs : List String) (sched : List Nat) (s : σ)
    (hok : ∀ task ∈ (provision E pc d topicIDs sched s).tasks, ∀ ev ∈ task.log,
      ev.failed = false) :
    (provision E pc d topicIDs sched s).eg.Wait = some none ∧
    List.Forall₂ (fun t task => ∃ pre x, Resolved pc t pre ∧
        task.log = pre ++ stages pc d t x none)
      topicIDs (provision E pc d topicIDs sched s).tasks := by
  have inv := provision_inv E pc d topicIDs sched s
  have hret := provision_returned E pc d topicIDs sched s
  have hres : ∀ task ∈ (provision E pc d topicIDs sched s).tasks, task.result = some none := by
    intro task htask
    obtain ⟨t, _, r, hr, hshape⟩ := provision_result E pc d topicIDs sched s task htask
    rw [hr, (hshape.ok_ret (hok task htask)).1]
  constructor
  · rw [provision_wait]
    congr 1
    cases herr : (provision E pc d topicIDs sched s).eg.err with
    | none => rfl
    | some e =>
      obtain ⟨task, htask, hr⟩ := inv.errFrom e herr
      rw [hres task htask] at hr
      cases hr
  · refine forall₂_imp_mem inv.tasks ?_
    intro t task htask htok
    have hs := htok.has_shape
    cases hst : task.status with
    | running p =>
      have := hret task htask
      simp [Task.returned, hst] at this
    | returned r =>
      rw [hst] at hs
      exact (Shape.ok_ret hs (hok task htask)).2

/-- A goroutine that went through all the stages has sent its record, once. -/
theorem stages_sent (pc : PubSubClient) (d : Int) (t x : String) (pre : List Event)
    (hpre : Resolved pc t pre) :
    (pre ++ stages pc d t x none).filterMap Event.sent = [recordOf pc t x] := by
  rcases hpre with rfl | rfl <;> simp [stages, Event.sent]

/-- When every goroutine went through all the stages, the topics of the records sent are those of the identifiers, in order. -/
theorem sent_topics (pc : PubSubClient) (d : Int) (topicIDs : List String) (tasks : List Task)
    (h : List.Forall₂ (fun t task => ∃ pre x, Resolved pc t pre ∧
        task.log = pre ++ stages pc d t x none) topicIDs tasks) :
    (tasks.flatMap fun t => t.log.filterMap Event.sent).map (fun r => r.topic)
      = topicIDs.map pc.Topic := by
  induction h with
  | nil => rfl
  | cons hab _ ih =>
    obtain ⟨pre, x, hpre, hlog⟩ := hab
    simp only [List.flatMap_cons, List.map_append, ih, hlog, stages_sent pc d _ x pre hpre]
    simp [recordOf]

/-- Different identifiers have different topic handles. -/
theorem Topic_injective (pc : PubSubClient) : Function.Injective pc.Topic := by
  intro a b h
  simpa [PubSubClient.Topic] using h

/-- The calls of a goroutine that has returned and whose existence check answered
false: one `CreateTopic` call, and `CreateSubscription` only after its success. -/
theorem Shape.topic_first {pc : PubSubClient} {d : Int} {t : String} {L : List Event}
    {r : Option Err} (h : Shape pc d t L (.ret r))
    (hmiss : Event.topicExists (pc.Topic t) (.ok false) ∈ L) :
    (∃ r2, L.filter Event.isCreateTopic = [Event.createTopic t r2]) ∧
    (∀ l1 l2 n c r3, L = l1 ++ Event.createSubscription n c r3 :: l2 →
      Event.createTopic t none ∈ l1 ∧ c.Topic = pc.Topic t) ∧
    (∀ e, Event.createTopic t (some e) ∈ L → L.filter Event.isCreateSubscription = []) := by
  cases h with
  | checkFailed e => simp at hmiss
  | createFailed e =>
    refine ⟨⟨some e, by simp [Event.isCreateTopic]⟩, ?_, ?_⟩
    · intro l1 l2 n c r3 h
      simp [List.cons_eq_append_iff] at h
    · intro e2 _
      simp [Event.isCreateSubscription]
  | subscribeFailed pre hpre x e =>
    rcases hpre with rfl | rfl
    · simp [stages] at hmiss
    · refine ⟨⟨none, by simp [Event.isCreateTopic, stages]⟩, ?_, ?_⟩
      · intro l1 l2 n c r3 h
        simp [stages, List.cons_eq_append_iff] at h
        obtain ⟨a, rfl, b, rfl, c2, rfl, c3, rfl, rfl, ⟨rfl, rfl, rfl⟩, rfl⟩ := h
        simp [uniqueConfig]
      · intro e2 he2
        simp [stages] at he2
  | reported pre hpre x =>
    rcases hpre with rfl | rfl
    · simp [stages] at hmiss
    · refine ⟨⟨none, by simp [Event.isCreateTopic, stages]⟩, ?_, ?_⟩
      · intro l1 l2 n c r3 h
        simp [stages, List.cons_eq_append_iff] at h
        obtain ⟨a, rfl, b, rfl, c2, rfl, c3, rfl, rfl, ⟨rfl, rfl, rfl⟩, rfl⟩ := h
        simp [uniqueConfig]
      · intro e2 he2
        simp [stages] at he2

/-- The character of a decimal digit stands for that digit. -/
theorem digitChar_value (d : Nat) (h : d < 10) : (Nat.digitChar d).toNat - 48 = d := by
  interval_cases d <;> rfl

/-- Reading the decimal digits of a number gives the number back. -/
theorem toDigitsCore_value (f : Nat) : ∀ (n : Nat) (ds : List Char), n < f →
    (Nat.toDigitsCore 10 f n ds).foldl (fun a c => a * 10 + (c.toNat - 48)) 0 =
      ds.foldl (fun a c => a * 10 + (c.toNat - 48)) n := by
  induction f with
  | zero => intro n ds h; omega
  | succ f ih =>
    intro n ds h
    simp only [Nat.toDigitsCore]
    split
    · rename_i h0
      simp only [List.foldl_cons, digitChar_value (n % 10) (Nat.mod_lt _ (by omega))]
      congr 1
      omega
    · rename_i h0
      have hlt : n / 10 < f := by omega
      rw [ih (n / 10) _ hlt]
      simp only [List.foldl_cons, digitChar_value (n % 10) (Nat.mod_lt _ (by omega))]
      congr 1
      omega

/-- Different numbers have different numerals. -/
theorem toString_injective (n m : Nat) (h : toString n = toString m) : n = m := by
  have h1 : (Nat.toDigits 10 n) = (Nat.toDigits 10 m) := by
    have := congrArg String.data h
    simpa [toString, Nat.repr] using this
  have hn := toDigitsCore_value (n + 1) n [] (by omega)
  have hm := toDigitsCore_value (m + 1) m [] (by omega)
  simp only [Nat.toDigits] at h1
  rw [h1, hm] at hn
  simpa using hn.symm

/-- The identifier generator of the in-memory service keeps its contract. -/
theorem memEnv_fresh : memEnv.Fresh Service.issued := by
  refine ⟨?_, ?_, ?_, ?_⟩
  · intro s
    refine ⟨?_, ?_, ?_⟩
    · simp only [memEnv, Service.issued, List.mem_map, List.mem_range, not_exists, not_and]
      intro k hk heq
      have := toString_injective _ _ heq
      omega
    · simp only [memEnv, Service.issued, List.mem_map, List.mem_range]
      exact ⟨s.next, by omega, rfl⟩
    · intro x hx
      simp only [memEnv, Service.issued, List.mem_map, List.mem_range] at hx ⊢
      obtain ⟨k, hk, rfl⟩ := hx
      exact ⟨k, by omega, rfl⟩
  · intro s t
    simp only [memEnv]
    split <;> exact fun x hx => hx
  · intro s t
    simp only [memEnv]
    split <;> exact fun x hx => hx
  · intro s i c
    simp only [memEnv]
    split
    · exact fun x hx => hx
    · split <;> exact fun x hx => hx

/-- The identifiers generated, after the calls of one goroutine are extended by calls
that generate the identifiers `ys`. -/
theorem generated_set {σ : Type} (pool : Pool σ) (i : Nat) (a b : Task) (ys : List String)
    (env : σ) (eg : Group) (subs : List subscriber) (ha : pool.tasks[i]? = some a)
    (hb : b.log.filterMap Event.generated = a.log.filterMap Event.generated ++ ys) :
    (Pool.generated
      { env := env, tasks := pool.tasks.set i b, eg := eg, subscribers := subs,
        cap := pool.cap }).Perm (pool.generated ++ ys) :=
  flatMap_set_perm (fun t : Task => t.log.filterMap Event.generated) pool.tasks i a b ys ha hb

/-- Every move of a goroutine keeps the invariant of the generated identifiers. -/
theorem XInv.after_fresh_move {σ : Type} {E : Env σ} {issued : σ → List String}
    (hfresh : E.Fresh issued) {pool pool2 : Pool σ} {i : Nat} (inv : XInv issued pool)
    (m : Moves E pool i pool2) : XInv issued pool2 := by
  have keep : ∀ (b : Task) (a : Task) (env : σ) (eg : Group) (subs : List subscriber),
      pool.tasks[i]? = some a →
      b.log.filterMap Event.generated = a.log.filterMap Event.generated →
      issued pool.env ⊆ issued env →
      XInv issued
        { env := env, tasks := pool.tasks.set i b, eg := eg, subscribers := subs,
          cap := pool.cap } := by
    intro b a env eg subs ha hb hsub
    have hp := generated_set pool i a b [] env eg subs ha (by simp [hb])
    rw [List.append_nil] at hp
    exact ⟨hp.nodup_iff.mpr inv.1, fun x hx => hsub (inv.2 x (hp.mem_iff.mp hx))⟩
  cases m with
  | idle h => exact inv
  | returns log r h => exact keep _ _ _ _ _ h rfl (fun x hx => hx)
  | sends log x k h hc => exact keep _ _ _ _ _ h (by simp [Event.generated]) (fun x hx => hx)
  | calls log p q ev s h hm hq hs hh hstep =>
    cases p with
    | ret r => simp [Prog.step] at hstep
    | send x k => simp [Prog.head] at hh
    | topicExists t k =>
      simp only [Prog.step, Option.some.injEq, Prod.mk.injEq] at hstep
      obtain ⟨rfl, _, rfl⟩ := hstep
      exact keep _ _ _ _ _ h (by simp [Event.generated]) (hfresh.topicExists _ _)
    | createTopic t k =>
      simp only [Prog.step, Option.some.injEq, Prod.mk.injEq] at hstep
      obtain ⟨rfl, _, rfl⟩ := hstep
      exact keep _ _ _ _ _ h (by simp [Event.generated]) (hfresh.createTopic _ _)
    | createSubscription n c k =>
      simp only [Prog.step, Option.some.injEq, Prod.mk.injEq] at hstep
      obtain ⟨rfl, _, rfl⟩ := hstep
      exact keep _ _ _ _ _ h (by simp [Event.generated]) (hfresh.createSubscription _ _ _)
    | println x k =>
      simp only [Prog.step, Option.some.injEq, Prod.mk.injEq] at hstep
      obtain ⟨rfl, _, rfl⟩ := hstep
      exact keep _ _ _ _ _ h (by simp [Event.generated]) (fun x hx => hx)
    | fprintf x a k =>
      simp only [Prog.step, Option.some.injEq, Prod.mk.injEq] at hstep
      obtain ⟨rfl, _, rfl⟩ := hstep
      exact keep _ _ _ _ _ h (by simp [Event.generated]) (fun x hx => hx)
    | ack m k =>
      simp only [Prog.step, Option.some.injEq, Prod.mk.injEq] at hstep
      obtain ⟨rfl, _, rfl⟩ := hstep
      exact keep _ _ _ _ _ h (by simp [Event.generated]) (fun x hx => hx)
    | xidNew k =>
      simp only [Prog.step, Option.some.injEq, Prod.mk.injEq] at hstep
      obtain ⟨rfl, _, rfl⟩ := hstep
      obtain ⟨hnot, hin, hsub⟩ := hfresh.xidNew pool.env
      have hp := generated_set pool i _ ⟨.running q, log ++ [.xidNew (E.xidNew pool.env).1]⟩
        [(E.xidNew pool.env).1] (E.xidNew pool.env).2 pool.eg pool.subscribers h
        (by simp [Event.generated])
      refine ⟨hp.nodup_iff.mpr ?_, ?_⟩
      · rw [List.nodup_append]
        refine ⟨inv.1, List.nodup_singleton _, ?_⟩
        intro x hx hx2
        rw [List.mem_singleton] at hx2
        subst hx2
        exact hnot (inv.2 _ hx)
      · intro x hx
        rcases List.mem_append.mp (hp.mem_iff.mp hx) with h1 | h1
        · exact hsub (inv.2 x h1)
        · rw [List.mem_singleton] at h1
          subst h1
          exact hin

/-- The invariant of the generated identifiers holds after every schedule. -/
theorem XInv.after_fresh_sched {σ : Type} {E : Env σ} {issued : σ → List String}
    (hfresh : E.Fresh issued) (sched : List Nat) {pool : Pool σ} (inv : XInv issued pool) :
    XInv issued (pool.runSched E sched) := by
  induction sched generalizing pool with
  | nil => exact inv
  | cons i is ih => exact ih (inv.after_fresh_move hfresh (stepAt_moves E pool i))

/-- No identifier is generated twice during the provisioning phase. -/
theorem provision_generated_nodup {σ : Type} {E : Env σ} {issued : σ → List String}
    (hfresh : E.Fresh issued) (pc : PubSubClient) (d : Int) (topicIDs : List String)
    (sched : List Nat) (s : σ) : (provision E pc d topicIDs sched s).generated.Nodup := by
  have h0 : XInv issued (Pool.start pc d topicIDs s) := by
    have : (Pool.start pc d topicIDs s).generated = [] := by
      simp only [Pool.generated, Pool.start]
      induction topicIDs with
      | nil => rfl
      | cons x xs ih => simp
    exact ⟨by rw [this]; exact List.nodup_nil, by rw [this]; intro x hx; cases hx⟩
  exact (h0.after_fresh_sched hfresh _).1

/-- A goroutine that went through all the stages has generated its identifier, once. -/
theorem stages_generated (pc : PubSubClient) (d : Int) (t x : String) (pre : List Event)
    (hpre : Resolved pc t pre) :
    (pre ++ stages pc d t x none).filterMap Event.generated = [x] := by
  rcases hpre with rfl | rfl <;> simp [stages, Event.generated]

/-- A goroutine that has returned began with the existence check of its topic. -/
theorem Shape.check_first {pc : PubSubClient} {d : Int} {t : String} {L : List Event}
    {r : Option Err} (h : Shape pc d t L (.ret r)) :
    ∃ r0, L.head? = some (Event.topicExists (pc.Topic t) r0) := by
  cases h with
  | checkFailed e => exact ⟨_, rfl⟩
  | createFailed e => exact ⟨_, rfl⟩
  | subscribeFailed pre hpre x e => rcases hpre with rfl | rfl <;> exact ⟨_, rfl⟩
  | reported pre hpre x => rcases hpre with rfl | rfl <;> exact ⟨_, rfl⟩

/-! # Properties of topic resolution, provisioning and `subscribe` -/

/-- C1. Fail-fast: whatever the collaborators answer and however the goroutines are
scheduled, if `FindOrCreateTopic` fails in the goroutine of at least one identifier (its
existence check or its `CreateTopic` call returned an error), `subscribe` returns a
non-nil error without entering the listening phase: `Receive` is called on no
subscription. -/
theorem subscribe_fail_fast {σ : Type} (E : Env σ) (pc : PubSubClient) (d : Int)
    (topicIDs : List String) (sched : List Nat) (ds : List Delivery) (s : σ)
    (h : ∃ task ∈ (provision E pc d topicIDs sched s).tasks, resolutionFailed task.log = true) :
    (∃ err, (subscribe E pc d topicIDs sched ds s).result = some (some err)) ∧
    (subscribe E pc d topicIDs sched ds s).receiveCalls = [] ∧
    (subscribe E pc d topicIDs sched ds s).listening.isNone = true := by
  obtain ⟨task, htask, hfail⟩ := h
  have inv := provision_inv E pc d topicIDs sched s
  obtain ⟨t, _, r, hres, hshape⟩ := provision_result E pc d topicIDs sched s task htask
  have hr : r ≠ none := hshape.failed_ret hfail
  have herr : (provision E pc d topicIDs sched s).eg.err ≠ none := by
    intro hnone
    exact hr (inv.noErr hnone task htask r hres)
  obtain ⟨e, he⟩ := Option.ne_none_iff_exists'.mp herr
  have hw := provision_wait E pc d topicIDs sched s
  rw [he] at hw
  refine ⟨⟨e, ?_⟩, ?_, ?_⟩ <;> simp [subscribe, hw, Outcome.receiveCalls]

/-- C1, at an in-memory service that refuses the existence check of topic `b`, for the
identifiers `a` and `b`. -/
theorem subscribe_fail_fast_witness :
    (∃ err, (subscribe memEnv ⟨"p"⟩ 10 ["a", "b"] [1, 0, 0] []
      { topics := [], subscriptions := [], next := 0, denied := ["b"] }).result
        = some (some err)) ∧
    (subscribe memEnv ⟨"p"⟩ 10 ["a", "b"] [1, 0, 0] []
      { topics := [], subscriptions := [], next := 0, denied := ["b"] }).receiveCalls = [] :=
  have h := subscribe_fail_fast memEnv ⟨"p"⟩ 10 ["a", "b"] [1, 0, 0] []
    { topics := [], subscriptions := [], next := 0, denied := ["b"] }
    ⟨⟨.returned (some (.withMessage (.withMessage (.mk "permission denied") "find topic b")
        "find or create topic b")), [.topicExists ⟨"p", "b"⟩ (.error (.mk "permission denied"))]⟩,
      List.getElem?_mem (show (provision memEnv ⟨"p"⟩ 10 ["a", "b"] [1, 0, 0]
        { topics := [], subscriptions := [], next := 0, denied := ["b"] }).tasks[1]? = some _
          from rfl),
      by decide⟩
  ⟨h.1, h.2.1⟩

/-- C2. For pairwise distinct topic identifiers, when no call of the provisioning phase
on the messaging service fails, `subscribe` enters the listening phase and hands it
exactly `len(topicIDs)` subscriber records; for each input identifier exactly one of the
records has the topic of that identifier; and every record pairs the topic handle of an
input identifier with a subscription that its goroutine created, right before sending
the record, by a `CreateSubscription` call that succeeded, whose identifier is the one
the subscription handle was made from and whose configuration has that same topic as
its `Topic`. -/
theorem subscribe_hands_over {σ : Type} (E : Env σ) (pc : PubSubClient) (d : Int)
    (topicIDs : List String) (sched : List Nat) (ds : List Delivery) (s : σ)
    (hnd : topicIDs.Nodup)
    (hok : ∀ task ∈ (provision E pc d topicIDs sched s).tasks, ∀ ev ∈ task.log,
      ev.failed = false) :
    (subscribe E pc d topicIDs sched ds s).listening.isSome = true ∧
    (subscribe E pc d topicIDs sched ds s).handedOver.length = topicIDs.length ∧
    (∀ t ∈ topicIDs,
      ((subscribe E pc d topicIDs sched ds s).handedOver.filter
        fun r => decide (r.topic = pc.Topic t)).length = 1) ∧
    (∀ r ∈ (subscribe E pc d topicIDs sched ds s).handedOver,
      ∃ t ∈ topicIDs, r.topic = pc.Topic t ∧
      ∃ task ∈ (subscribe E pc d topicIDs sched ds s).provisioned.tasks,
        [Event.createSubscription r.sub.id
          { Topic := r.topic, AckDeadline := d, ExpirationPolicy := 24 * Hour,
            Labels := [("created_by", "pubsub_cli")] } none,
         Event.send r] <:+: task.log) := by
  obtain ⟨hw, hall⟩ := provision_all_ok E pc d topicIDs sched s hok
  have inv := provision_inv E pc d topicIDs sched s
  have hsome : (subscribe E pc d topicIDs sched ds s).listening.isSome = true := by
    simp [subscribe, hw]
  have hprov : (subscribe E pc d topicIDs sched ds s).provisioned =
      provision E pc d topicIDs sched s := by
    simp [subscribe, hw]
  have hperm := inv.chan
  have htop := sent_topics pc d topicIDs _ hall
  rw [subscribe_handedOver E pc d topicIDs sched ds s hsome, hprov]
  refine ⟨hsome, ?_, ?_, ?_⟩
  · rw [hperm.length_eq, ← List.length_map _ (fun r : subscriber => r.topic), htop,
      List.length_map]
  · intro t ht
    have hcount : ∀ R : List subscriber,
        List.countP (fun r : subscriber => decide (r.topic = pc.Topic t)) R
          = List.count (pc.Topic t) (R.map fun r => r.topic) := by
      intro R
      rw [List.count, List.countP_map]
      congr 1
    rw [← List.countP_eq_length_filter, hperm.countP_eq, hcount, htop,
      List.count_map_of_injective _ _ (Topic_injective pc)]
    exact List.count_eq_one_of_mem hnd ht
  · intro r hr
    rw [hperm.mem_iff, List.mem_flatMap] at hr
    obtain ⟨task, htask, hr2⟩ := hr
    obtain ⟨j, hj⟩ := List.getElem?_of_mem htask
    obtain ⟨t, ht, pre, x, hpre, hlog⟩ := forall₂_getElem? hall j task hj
    rw [hlog, stages_sent pc d t x pre hpre, List.mem_singleton] at hr2
    subst hr2
    refine ⟨t, List.getElem?_mem ht, rfl, task, htask, ?_⟩
    rw [hlog]
    refine ⟨pre ++ (stages pc d t x none).take 2, (stages pc d t x none).drop 4, ?_⟩
    simp [stages, recordOf, uniqueConfig, PubSubClient.Subscription]

/-- C2, for the identifiers `a` and `b` at an empty in-memory service, the goroutine of
`b` moving first. -/
theorem subscribe_hands_over_witness :
    (subscribe memEnv ⟨"p"⟩ 10 ["a", "b"] [1, 1, 0] [] Service.empty).handedOver.length = 2 ∧
    ∀ t ∈ ["a", "b"],
      ((subscribe memEnv ⟨"p"⟩ 10 ["a", "b"] [1, 1, 0] [] Service.empty).handedOver.filter
        fun r => decide (r.topic = (⟨"p"⟩ : PubSubClient).Topic t)).length = 1 :=
  have h := subscribe_hands_over memEnv ⟨"p"⟩ 10 ["a", "b"] [1, 1, 0] [] Service.empty
    (by decide) (by decide)
  ⟨h.2.1, h.2.2.1⟩

/-- C3. Idempotence of topic resolution: when the existence check of topic `t` succeeds
with true, `FindOrCreateTopic` returns the handle of `t` and no error, its only call is
that existence check (so it never calls `CreateTopic`), and the set of topics of the
service (any observation `topics` of its state that existence checks leave alone) is
unchanged; a second call right after the first, its existence check succeeding with true
again, returns the handle of the same topic and creates nothing either. -/
theorem FindOrCreateTopic_existing {σ : Type} (E : Env σ) (topics : σ → List String)
    (hread : ∀ s t, topics (E.topicExists s t).2 = topics s)
    (pc : PubSubClient) (t : String) (s : σ)
    (h1 : (E.topicExists s (pc.Topic t)).1 = .ok true)
    (h2 : (E.topicExists (E.topicExists s (pc.Topic t)).2 (pc.Topic t)).1 = .ok true) :
    ((FindOrCreateTopic pc t).run E s).1 = .ok (pc.Topic t) ∧
    ((FindOrCreateTopic pc t).run E s).2.2 = [Event.topicExists (pc.Topic t) (.ok true)] ∧
    (∀ ev ∈ ((FindOrCreateTopic pc t).run E s).2.2, ev.isCreateTopic = false) ∧
    topics ((FindOrCreateTopic pc t).run E s).2.1 = topics s ∧
    ((FindOrCreateTopic pc t).run E ((FindOrCreateTopic pc t).run E s).2.1).1
      = .ok (pc.Topic t) ∧
    ((FindOrCreateTopic pc t).run E ((FindOrCreateTopic pc t).run E s).2.1).2.2
      = [Event.topicExists (pc.Topic t) (.ok true)] ∧
    topics ((FindOrCreateTopic pc t).run E ((FindOrCreateTopic pc t).run E s).2.1).2.1
      = topics s := by
  have e1 : (FindOrCreateTopic pc t).run E s = (.ok (pc.Topic t), (E.topicExists s (pc.Topic t)).2,
      [Event.topicExists (pc.Topic t) (.ok true)]) := by
    rw [FindOrCreateTopic_run, h1]
  have e2 : (FindOrCreateTopic pc t).run E (E.topicExists s (pc.Topic t)).2 =
      (.ok (pc.Topic t), (E.topicExists (E.topicExists s (pc.Topic t)).2 (pc.Topic t)).2,
      [Event.topicExists (pc.Topic t) (.ok true)]) := by
    rw [FindOrCreateTopic_run, h2]
  rw [e1]
  simp only [e2, hread, true_and, List.mem_singleton, forall_eq, Event.isCreateTopic]

/-- C3, at an in-memory service that holds topic `orders`. -/
theorem FindOrCreateTopic_existing_witness :
    ((FindOrCreateTopic ⟨"p"⟩ "orders").run memEnv
        { topics := ["orders"], subscriptions := [], next := 0, denied := [] }).1
      = .ok ⟨"p", "orders"⟩ ∧
    (((FindOrCreateTopic ⟨"p"⟩ "orders").run memEnv
        { topics := ["orders"], subscriptions := [], next := 0, denied := [] }).2.1).topics
      = ["orders"] :=
  have h := FindOrCreateTopic_existing memEnv Service.topics (by intro s t; simp only [memEnv]; split <;> rfl)
    ⟨"p"⟩ "orders" { topics := ["orders"], subscriptions := [], next := 0, denied := [] }
    (by decide) (by decide)
  ⟨h.1, h.2.2.2.1⟩

/-- C4. Topic-before-subscription ordering: in the goroutine `subscribe` runs for a topic
identifier `t` whose existence check answered false, `CreateTopic` is called exactly once,
for `t`; every `CreateSubscription` call of the goroutine (a call for the topic `t`)
comes after a `CreateTopic(t)` call that returned no error; and when the `CreateTopic`
call failed the goroutine makes no `CreateSubscription` call. -/
theorem provision_topic_before_subscription {σ : Type} (E : Env σ) (pc : PubSubClient)
    (d : Int) (topicIDs : List String) (sched : List Nat) (s : σ) (i : Nat) (t : String)
    (hi : topicIDs[i]? = some t)
    (hmiss : Event.topicExists (pc.Topic t) (.ok false) ∈
      (provision E pc d topicIDs sched s).logAt i) :
    (∃ r, ((provision E pc d topicIDs sched s).logAt i).filter Event.isCreateTopic
      = [Event.createTopic t r]) ∧
    (∀ l1 l2 n c r,
      (provision E pc d topicIDs sched s).logAt i = l1 ++ Event.createSubscription n c r :: l2 →
      Event.createTopic t none ∈ l1 ∧ c.Topic = pc.Topic t) ∧
    (∀ e, Event.createTopic t (some e) ∈ (provision E pc d topicIDs sched s).logAt i →
      ((provision E pc d topicIDs sched s).logAt i).filter Event.isCreateSubscription = []) := by
  have inv := provision_inv E pc d topicIDs sched s
  cases ht : (provision E pc d topicIDs sched s).tasks[i]? with
  | none => simp [Pool.logAt, ht] at hmiss
  | some task =>
    simp only [Pool.logAt, ht] at hmiss ⊢
    obtain ⟨t2, ht2, hok⟩ := forall₂_getElem? inv.tasks i task ht
    rw [hi] at ht2
    cases ht2
    have hret := provision_returned E pc d topicIDs sched s task (List.getElem?_mem ht)
    have hs := hok.has_shape
    cases hst : task.status with
    | running p => simp [Task.returned, hst] at hret
    | returned r =>
      rw [hst] at hs
      exact Shape.topic_first hs hmiss

/-- C4, for the identifier `missing` at an empty in-memory service. -/
theorem provision_topic_before_subscription_witness :
    ∃ r, ((provision memEnv ⟨"p"⟩ 10 ["missing"] [] Service.empty).logAt 0).filter
      Event.isCreateTopic = [Event.createTopic "missing" r] :=
  (provision_topic_before_subscription memEnv ⟨"p"⟩ 10 ["missing"] [] Service.empty 0
    "missing" rfl (by decide)).1

/-- C5. `FindOrCreateTopic` returns an error exactly when the existence check fails, or
the existence check answers false and the `CreateTopic` call fails (an error result
carries no topic handle); its calls are the existence check, followed by one
`CreateTopic` call exactly when the check answered false, and nothing after that call,
whatever it returned: the state of the service it leaves is the one that last call
left. -/
theorem FindOrCreateTopic_error_iff {σ : Type} (E : Env σ) (pc : PubSubClient) (t : String)
    (s : σ) :
    ((∃ err, ((FindOrCreateTopic pc t).run E s).1 = .error err) ↔
      ((∃ e, (E.topicExists s (pc.Topic t)).1 = .error e) ∨
       ((E.topicExists s (pc.Topic t)).1 = .ok false ∧
        ∃ e, (E.createTopic (E.topicExists s (pc.Topic t)).2 t).1 = some e))) ∧
    ((FindOrCreateTopic pc t).run E s).2.2 =
      Event.topicExists (pc.Topic t) (E.topicExists s (pc.Topic t)).1 ::
        (if (E.topicExists s (pc.Topic t)).1 = .ok false then
          [Event.createTopic t (E.createTopic (E.topicExists s (pc.Topic t)).2 t).1]
         else []) ∧
    ((FindOrCreateTopic pc t).run E s).2.1 =
      (if (E.topicExists s (pc.Topic t)).1 = .ok false then
        (E.createTopic (E.topicExists s (pc.Topic t)).2 t).2
       else (E.topicExists s (pc.Topic t)).2) := by
  rw [FindOrCreateTopic_run]
  rcases h : (E.topicExists s (pc.Topic t)).1 with e | b
  · simp
  · cases b
    · rcases h2 : (E.createTopic (E.topicExists s (pc.Topic t)).2 t).1 with _ | e
      · simp
      · simp
    · simp

/-- C6. `CreateUniqueSubscription` makes exactly one `CreateSubscription` call (after
generating an identifier), with a configuration whose topic is the given topic, whose
acknowledgment deadline is the given one, whose expiration policy is 24 hours
(86400 seconds, in nanoseconds) and whose labels are the single entry
`created_by = pubsub_cli`; it returns the handle of the subscription when the call
reports no error, and no subscription and the error of the call otherwise. -/
theorem CreateUniqueSubscription_request {σ : Type} (E : Env σ) (pc : PubSubClient)
    (topic : Topic) (d : Int) (s : σ) :
    ((CreateUniqueSubscription pc topic d).run E s).2.2 =
      [Event.xidNew (E.xidNew s).1,
       Event.createSubscription ("pubsub_cli_" ++ (E.xidNew s).1)
         { Topic := topic, AckDeadline := d, ExpirationPolicy := 86400 * 1000000000,
           Labels := [("created_by", "pubsub_cli")] }
         (E.createSubscription (E.xidNew s).2 ("pubsub_cli_" ++ (E.xidNew s).1)
           (uniqueConfig topic d)).1] ∧
    (((CreateUniqueSubscription pc topic d).run E s).2.2.filter Event.isCreateSubscription).length
      = 1 ∧
    ((CreateUniqueSubscription pc topic d).run E s).1 =
      (match (E.createSubscription (E.xidNew s).2 ("pubsub_cli_" ++ (E.xidNew s).1)
            (uniqueConfig topic d)).1 with
        | none => .ok (pc.Subscription ("pubsub_cli_" ++ (E.xidNew s).1))
        | some e => .error e) := by
  rw [CreateUniqueSubscription_run]
  refine ⟨?_, ?_, rfl⟩
  · simp [uniqueConfig, Hour]
  · simp [Event.isCreateSubscription]

/-- C7. The subscription name `CreateUniqueSubscription` requests is `pubsub_cli_`
followed by the identifier generated in the call, whatever the topic; two calls whose
generated identifiers differ request different names. -/
theorem CreateUniqueSubscription_names_differ {σ : Type} (E : Env σ) (pc1 pc2 : PubSubClient)
    (topic1 topic2 : Topic) (d1 d2 : Int) (s1 s2 : σ)
    (h : (E.xidNew s1).1 ≠ (E.xidNew s2).1) :
    ((CreateUniqueSubscription pc1 topic1 d1).run E s1).2.2.filterMap Event.requestedName
      = ["pubsub_cli_" ++ (E.xidNew s1).1] ∧
    ((CreateUniqueSubscription pc2 topic2 d2).run E s2).2.2.filterMap Event.requestedName
      = ["pubsub_cli_" ++ (E.xidNew s2).1] ∧
    ((CreateUniqueSubscription pc1 topic1 d1).run E s1).2.2.filterMap Event.requestedName
      ≠ ((CreateUniqueSubscription pc2 topic2 d2).run E s2).2.2.filterMap Event.requestedName := by
  rw [CreateUniqueSubscription_run, CreateUniqueSubscription_run]
  simp only [List.filterMap_cons, Event.requestedName, List.filterMap_nil, true_and]
  intro h1
  exact h (append_left_cancel _ _ _ (List.cons.inj h1).1)

/-- C7, for two calls on the same topic at an in-memory service, one after the other. -/
theorem CreateUniqueSubscription_names_differ_witness :
    ((CreateUniqueSubscription ⟨"p"⟩ ⟨"p", "a"⟩ 10).run memEnv
        { topics := ["a"], subscriptions := [], next := 0, denied := [] }).2.2.filterMap
        Event.requestedName
      ≠ ((CreateUniqueSubscription ⟨"p"⟩ ⟨"p", "a"⟩ 10).run memEnv
        { topics := ["a"], subscriptions := [("pubsub_cli_0", "a")], next := 1,
          denied := [] }).2.2.filterMap Event.requestedName :=
  (CreateUniqueSubscription_names_differ memEnv ⟨"p"⟩ ⟨"p"⟩ ⟨"p", "a"⟩ ⟨"p", "a"⟩ 10 10
    { topics := ["a"], subscriptions := [], next := 0, denied := [] }
    { topics := ["a"], subscriptions := [("pubsub_cli_0", "a")], next := 1, denied := [] }
    (by decide)).2.2

/-- C8. Acknowledgment: when the service delivers a message to a receive loop of
`subscribe` (a loop whose `Receive` has not returned), one callback is started with the
subscriber of that loop and that message. Whatever happens next in the listening phase,
the calls of this callback are, in this order, `Ack` on the message and
`colorstring.Fprintf` with the format of the `got message` line and, as its arguments, the
identifier of the topic of the subscriber, the identifier of the message and the payload:
it has made none of them, or the first, or both, they appear in this order among the calls
of the listening phase, and after two moves of the callback it has made both, so that
`Ack` is called exactly once, before the line is written. -/
theorem handler_acks_then_reports {σ : Type} (E : Env σ) (pc : PubSubClient) (d : Int)
    (topicIDs : List String) (sched : List Nat) (ds ds2 : List Delivery) (s : σ)
    (i n : Nat) (x : subscriber) (msg : Message)
    (h : (subscribe E pc d topicIDs sched ds s).loops[i]? = some ⟨x, none⟩)
    (hn : (subscribe E pc d topicIDs sched ds s).callbackCount = n) :
    (subscribe E pc d topicIDs sched (ds ++ [.deliver i msg]) s).callbackCount = n + 1 ∧
    (subscribe E pc d topicIDs sched (ds ++ [.deliver i msg]) s).callbackOf n = some (x, msg) ∧
    (subscribe E pc d topicIDs sched (ds ++ [.deliver i msg]) s).callbackLog n = [] ∧
    ((subscribe E pc d topicIDs sched (ds ++ .deliver i msg :: ds2) s).callbackLog n = [] ∨
     (subscribe E pc d topicIDs sched (ds ++ .deliver i msg :: ds2) s).callbackLog n
        = [Event.ack msg] ∨
     (subscribe E pc d topicIDs sched (ds ++ .deliver i msg :: ds2) s).callbackLog n
        = [Event.ack msg,
           Event.fprintf "[green][success] got message published to %s, id: %s, data: %q\n"
             [.text x.topic.ID, .text msg.ID, .bytes msg.Data]]) ∧
    ((subscribe E pc d topicIDs sched (ds ++ .deliver i msg :: ds2) s).callbackLog n).Sublist
      (subscribe E pc d topicIDs sched (ds ++ .deliver i msg :: ds2) s).out ∧
    (subscribe E pc d topicIDs sched
        (ds ++ .deliver i msg :: ds2 ++ [.callbackMoves n, .callbackMoves n]) s).callbackLog n
      = [Event.ack msg,
         Event.fprintf "[green][success] got message published to %s, id: %s, data: %q\n"
           [.text x.topic.ID, .text msg.ID, .bytes msg.Data]] := by
  have hsome : (subscribe E pc d topicIDs sched ds s).listening.isSome = true := by
    cases hl : (subscribe E pc d topicIDs sched ds s).listening with
    | none => simp [Outcome.loops, hl] at h
    | some l => rfl
  obtain ⟨hw, hl, _⟩ := subscribe_listening E pc d topicIDs sched ds s hsome
  have hent := subscribe_entered E pc d topicIDs sched s hw
  simp only [Outcome.loops, hl] at h
  simp only [Outcome.callbackCount, hl] at hn
  have inv0 : CInv ((Listen.start (provision E pc d topicIDs sched s).env
      (provision E pc d topicIDs sched s).eg
      (provision E pc d topicIDs sched s).subscribers).run E ds) :=
    (CInv.at_callback_start _ _ _).after_listen_run E ds
  simp only [Outcome.callbackCount, Outcome.callbackOf, Outcome.callbackLog, Outcome.out, hent,
    Listen.run_append]
  generalize (Listen.start (provision E pc d topicIDs sched s).env
      (provision E pc d topicIDs sched s).eg
      (provision E pc d topicIDs sched s).subscribers).run E ds = l at h hn inv0
  have hstep : l.step E (.deliver i msg) =
      { l with callbacks := l.callbacks ++ [⟨x, msg, handler x msg, []⟩] } := by
    simp only [Listen.step, h]
  have hrun1 : l.run E [.deliver i msg] = l.step E (.deliver i msg) := rfl
  have hrun2 : l.run E (.deliver i msg :: ds2) = (l.step E (.deliver i msg)).run E ds2 := rfl
  have hnew : (l.step E (.deliver i msg)).callbacks[n]? = some ⟨x, msg, handler x msg, []⟩ := by
    rw [hstep, ← hn]
    simp
  have inv1 : CInv (l.step E (.deliver i msg)) := inv0.after_listen_step E _
  have inv2 : CInv ((l.step E (.deliver i msg)).run E ds2) := inv1.after_listen_run E ds2
  obtain ⟨cb2, hcb2, hs2, hm2⟩ := Listen.run_callback E ds2 _ n _ hnew
  obtain ⟨hok2, hsub2⟩ := inv2 n cb2 hcb2
  simp only at hs2 hm2
  obtain ⟨cb3, hcb3, hlog3⟩ := Listen.callback_completes E _ n cb2 hcb2 hok2
  rw [hrun1, hrun2]
  refine ⟨?_, ?_, ?_, ?_, ?_, ?_⟩
  · rw [hstep, ← hn]
    simp
  · rw [hnew]
    rfl
  · rw [hnew]
  · rw [hcb2]
    simp only
    rcases hok2 with ⟨hl2, _⟩ | ⟨hl2, _⟩ | ⟨hl2, _⟩
    · exact Or.inl hl2
    · exact Or.inr (Or.inl (by rw [hl2, hm2]))
    · exact Or.inr (Or.inr (by rw [hl2, hm2, hs2]; rfl))
  · rw [hcb2]
    exact hsub2
  · rw [hcb3]
    simp only
    rw [hlog3, hm2, hs2]
    rfl

/-- C8, for the message `m1` with payload `hello` delivered to the loop of the topic
`logs/app`, whose identifier is `app`: once the callback has moved twice it has
acknowledged the message and then written the line. -/
theorem handler_acks_then_reports_witness :
    (subscribe memEnv ⟨"p"⟩ 10 ["logs/app"] []
      ([] ++ .deliver 0 ⟨"m1", [104, 101, 108, 108, 111]⟩ :: [] ++
        [.callbackMoves 0, .callbackMoves 0]) Service.empty).callbackLog 0 =
      [Event.ack ⟨"m1", [104, 101, 108, 108, 111]⟩,
       Event.fprintf "[green][success] got message published to %s, id: %s, data: %q\n"
         [.text "app", .text "m1", .bytes [104, 101, 108, 108, 111]]] :=
  (handler_acks_then_reports memEnv ⟨"p"⟩ 10 ["logs/app"] [] [] [] Service.empty 0 0
    ⟨⟨"p", "logs/app"⟩, ⟨"p", "pubsub_cli_0"⟩⟩ ⟨"m1", [104, 101, 108, 108, 111]⟩
    (by decide) (by decide)).2.2.2.2.2

/-- C9 (as amended). Scenario `["a","a"]`: `subscribe` runs two goroutines, each of which
begins with its own existence check of topic `a`, for every schedule of the two goroutines
and whether or not the topic exists. When no call of the two goroutines on the messaging
service fails, both resolve topic `a` (finding it, or creating it), each creates a
subscription with the topic `a` as the `Topic` of its configuration and the name
`pubsub_cli_` followed by the identifier it generated, the two names are different, and
the two records, both of topic `a`, are handed to the listening phase. The identifier
generator is taken under its contract: `xid` issues no identifier twice. -/
theorem subscribe_duplicate {σ : Type} (E : Env σ) (issued : σ → List String)
    (hfresh : E.Fresh issued) (pc : PubSubClient) (d : Int)
    (sched : List Nat) (ds : List Delivery) (s : σ) :
    (provision E pc d ["a", "a"] sched s).tasks.length = 2 ∧
    (∃ r0, ((provision E pc d ["a", "a"] sched s).logAt 0).head?
      = some (Event.topicExists (pc.Topic "a") r0)) ∧
    (∃ r1, ((provision E pc d ["a", "a"] sched s).logAt 1).head?
      = some (Event.topicExists (pc.Topic "a") r1)) ∧
    ((∀ task ∈ (provision E pc d ["a", "a"] sched s).tasks, ∀ ev ∈ task.log,
        ev.failed = false) →
      ∃ x y pre0 pre1, Resolved pc "a" pre0 ∧ Resolved pc "a" pre1 ∧
        (provision E pc d ["a", "a"] sched s).logAt 0 = pre0 ++ stages pc d "a" x none ∧
        (provision E pc d ["a", "a"] sched s).logAt 1 = pre1 ++ stages pc d "a" y none ∧
        Event.createSubscription ("pubsub_cli_" ++ x)
          { Topic := pc.Topic "a", AckDeadline := d, ExpirationPolicy := 24 * Hour,
            Labels := [("created_by", "pubsub_cli")] } none
          ∈ (provision E pc d ["a", "a"] sched s).logAt 0 ∧
        Event.createSubscription ("pubsub_cli_" ++ y)
          { Topic := pc.Topic "a", AckDeadline := d, ExpirationPolicy := 24 * Hour,
            Labels := [("created_by", "pubsub_cli")] } none
          ∈ (provision E pc d ["a", "a"] sched s).logAt 1 ∧
        "pubsub_cli_" ++ x ≠ "pubsub_cli_" ++ y ∧
        (subscribe E pc d ["a", "a"] sched ds s).handedOver.Perm
          [{ topic := pc.Topic "a", sub := pc.Subscription ("pubsub_cli_" ++ x) },
           { topic := pc.Topic "a", sub := pc.Subscription ("pubsub_cli_" ++ y) }]) := by
  have inv := provision_inv E pc d ["a", "a"] sched s
  have hlen : (provision E pc d ["a", "a"] sched s).tasks.length = 2 := by
    rw [← inv.tasks.length_eq]
    rfl
  obtain ⟨t0, t1, htasks⟩ : ∃ t0 t1, (provision E pc d ["a", "a"] sched s).tasks = [t0, t1] := by
    rcases hl : (provision E pc d ["a", "a"] sched s).tasks with _ | ⟨t0, _ | ⟨t1, _ | ⟨t2, rest⟩⟩⟩
    · rw [hl] at hlen; simp at hlen
    · rw [hl] at hlen; simp at hlen
    · exact ⟨t0, t1, rfl⟩
    · rw [hl] at hlen; simp at hlen
  have hhead : ∀ task ∈ (provision E pc d ["a", "a"] sched s).tasks,
      ∃ r0, task.log.head? = some (Event.topicExists (pc.Topic "a") r0) := by
    intro task htask
    obtain ⟨t, ht, r, _, hshape⟩ := provision_result E pc d ["a", "a"] sched s task htask
    have hta : t = "a" := by simpa using ht
    subst hta
    exact hshape.check_first
  have hlog0 : (provision E pc d ["a", "a"] sched s).logAt 0 = t0.log := by
    simp [Pool.logAt, htasks]
  have hlog1 : (provision E pc d ["a", "a"] sched s).logAt 1 = t1.log := by
    simp [Pool.logAt, htasks]
  refine ⟨hlen, ?_, ?_, ?_⟩
  · rw [hlog0]
    exact hhead t0 (by simp [htasks])
  · rw [hlog1]
    exact hhead t1 (by simp [htasks])
  · intro hok
    obtain ⟨hw, hall⟩ := provision_all_ok E pc d ["a", "a"] sched s hok
    have hsome : (subscribe E pc d ["a", "a"] sched ds s).listening.isSome = true := by
      simp [subscribe, hw]
    rw [subscribe_handedOver E pc d ["a", "a"] sched ds s hsome, hlog0, hlog1]
    have hperm := inv.chan
    rw [htasks] at hall hperm
    cases hall with
    | cons h0 hrest =>
      cases hrest with
      | cons h1 _ =>
        obtain ⟨pre0, x, hpre0, hl0⟩ := h0
        obtain ⟨pre1, y, hpre1, hl1⟩ := h1
        have hxy : x ≠ y := by
          have hnd := provision_generated_nodup hfresh pc d ["a", "a"] sched s
          simp only [Pool.generated, htasks, List.flatMap_cons, List.flatMap_nil, hl0, hl1,
            stages_generated pc d "a" x pre0 hpre0, stages_generated pc d "a" y pre1 hpre1,
            List.append_nil, List.singleton_append, List.nodup_cons, List.mem_singleton,
            List.not_mem_nil, not_false_eq_true, List.nodup_nil, and_true] at hnd
          exact hnd
        refine ⟨x, y, pre0, pre1, hpre0, hpre1, hl0, hl1, ?_, ?_, ?_, ?_⟩
        · rw [hl0]
          simp [stages, uniqueConfig]
        · rw [hl1]
          simp [stages, uniqueConfig]
        · intro heq
          exact hxy (append_left_cancel _ _ _ heq)
        · simpa [hl0, hl1, stages_sent pc d "a" x pre0 hpre0,
            stages_sent pc d "a" y pre1 hpre1, recordOf] using hperm

/-- C9 (as amended), at an in-memory service that holds topic `a`, the two goroutines
moving in turn: two subscriptions of topic `a` are created, and their names differ. -/
theorem subscribe_duplicate_witness :
    ∃ x y pre0 pre1, Resolved ⟨"p"⟩ "a" pre0 ∧ Resolved ⟨"p"⟩ "a" pre1 ∧
      (provision memEnv ⟨"p"⟩ 10 ["a", "a"] [0, 1, 0, 1]
        { topics := ["a"], subscriptions := [], next := 0, denied := [] }).logAt 0
          = pre0 ++ stages ⟨"p"⟩ 10 "a" x none ∧
      (provision memEnv ⟨"p"⟩ 10 ["a", "a"] [0, 1, 0, 1]
        { topics := ["a"], subscriptions := [], next := 0, denied := [] }).logAt 1
          = pre1 ++ stages ⟨"p"⟩ 10 "a" y none ∧
      "pubsub_cli_" ++ x ≠ "pubsub_cli_" ++ y :=
  have h := (subscribe_duplicate memEnv Service.issued memEnv_fresh ⟨"p"⟩ 10 [0, 1, 0, 1] []
    { topics := ["a"], subscriptions := [], next := 0, denied := [] }).2.2.2 (by decide)
  match h with
  | ⟨x, y, pre0, pre1, h0, h1, h2, h3, _, _, h6, _⟩ => ⟨x, y, pre0, pre1, h0, h1, h2, h3, h6⟩

/-- C9 (as stated) fails: at an empty in-memory service, when both goroutines for `a`
make their existence check before either creates the topic, the second `CreateTopic`
call is a conflict; the second goroutine resolves no topic and creates no subscription,
one subscription exists in the end, and `subscribe` returns the error without handing any
record to the listening phase. -/
theorem subscribe_duplicate_counterexample :
    (subscribe memEnv ⟨"p"⟩ 10 ["a", "a"] [0, 1, 0, 1] [] Service.empty).result =
      some (some (.withMessage (.withMessage (.mk "already exists") "create topic a")
        "find or create topic a")) ∧
    (subscribe memEnv ⟨"p"⟩ 10 ["a", "a"] [0, 1, 0, 1] [] Service.empty).provisioned.logAt 1 =
      [Event.topicExists ⟨"p", "a"⟩ (.ok false),
       Event.createTopic "a" (some (.mk "already exists"))] ∧
    (subscribe memEnv ⟨"p"⟩ 10 ["a", "a"] [0, 1, 0, 1] []
      Service.empty).provisioned.env.subscriptions = [("pubsub_cli_0", "a")] ∧
    (subscribe memEnv ⟨"p"⟩ 10 ["a", "a"] [0, 1, 0, 1] [] Service.empty).handedOver = [] := by
  decide

/-- C10 (as amended). Draining: once the listening phase has started, `subscribe` is
blocked in `eg.Wait()` exactly as long as some receive loop has not returned, so it
returns only when every loop has returned; the value it returns is the first non-nil
result in the order in which the loops returned, the result of a loop being nil when its
`Receive` returned nil and otherwise the error its `Receive` returned wrapped with the
message `receive message published to T through S subscription`, `T` the identifier of the
topic of the loop and `S` that of its subscription; so it returns nil exactly when the
`Receive` of every loop has returned nil. -/
theorem subscribe_waits_for_all {σ : Type} (E : Env σ) (pc : PubSubClient) (d : Int)
    (topicIDs : List String) (sched : List Nat) (ds : List Delivery) (s : σ)
    (h : (subscribe E pc d topicIDs sched ds s).listening.isSome = true) :
    ((subscribe E pc d topicIDs sched ds s).result = none ↔
      ∃ lp ∈ (subscribe E pc d topicIDs sched ds s).loops, lp.returned = none) ∧
    (∀ r, (subscribe E pc d topicIDs sched ds s).result = some r →
      r = firstError (subscribe E pc d topicIDs sched ds s).results) ∧
    (subscribe E pc d topicIDs sched ds s).results.Perm
      ((subscribe E pc d topicIDs sched ds s).loops.flatMap fun lp =>
        match lp.returned with
        | none => []
        | some none => [none]
        | some (some e) => [some (Err.withMessage e ("receive message published to " ++
            lp.s.topic.ID ++ " through " ++ lp.s.sub.ID ++ " subscription"))]) ∧
    ((subscribe E pc d topicIDs sched ds s).result = some none ↔
      ∀ lp ∈ (subscribe E pc d topicIDs sched ds s).loops, lp.returned = some none) := by
  rw [← receiveResult_cases]
  obtain ⟨hw, hl, hres⟩ := subscribe_listening E pc d topicIDs sched ds s h
  have hw2 := provision_wait E pc d topicIDs sched s
  rw [hw] at hw2
  have herr : (provision E pc d topicIDs sched s).eg.err = none := (Option.some.inj hw2).symm
  have hrun : (provision E pc d topicIDs sched s).eg.running = 0 := by
    by_contra hne
    simp [Group.Wait, hne] at hw
  have inv : LInv ((Listen.start (provision E pc d topicIDs sched s).env
        (provision E pc d topicIDs sched s).eg
        (provision E pc d topicIDs sched s).subscribers).run E ds) :=
    (LInv.at_listen_start _ _ _ hrun herr).after_run E ds
  simp only [Outcome.loops, Outcome.results, hl, hres]
  generalize (Listen.start (provision E pc d topicIDs sched s).env
        (provision E pc d topicIDs sched s).eg
        (provision E pc d topicIDs sched s).subscribers).run E ds = l at inv
  have hblocked : l.eg.Wait = none ↔ ∃ lp ∈ l.loops, lp.returned = none := by
    simp only [Group.Wait, inv.running]
    constructor
    · intro hh
      by_contra hcon
      have : l.loops.countP (fun lp => lp.returned.isNone) = 0 := by
        rw [List.countP_eq_zero]
        intro lp hlp hnone
        exact hcon ⟨lp, hlp, Option.isNone_iff_eq_none.mp hnone⟩
      simp [this] at hh
    · rintro ⟨lp, hlp, hnone⟩
      have : l.loops.countP (fun lp => lp.returned.isNone) ≠ 0 := by
        rw [Ne, List.countP_eq_zero]
        intro hall
        exact hall lp hlp (by simp [hnone])
      simp [this]
  have hfirst : ∀ r, l.eg.Wait = some r → r = firstError l.results := by
    intro r hr
    simp only [Group.Wait] at hr
    split at hr
    · rw [← inv.err]
      exact (Option.some.inj hr).symm
    · cases hr
  refine ⟨hblocked, hfirst, inv.results, ?_⟩
  constructor
  · intro hr lp hlp
    have h1 := (firstError_eq_none l.results).mp (hfirst none hr).symm
    cases hret : lp.returned with
    | none =>
      have := hblocked.mpr ⟨lp, hlp, hret⟩
      rw [this] at hr
      cases hr
    | some err =>
      have hmem : receiveResult lp.s err ∈ l.results := by
        rw [inv.results.mem_iff, List.mem_flatMap]
        exact ⟨lp, hlp, by simp [hret]⟩
      rw [(receiveResult_eq_none lp.s err).mp (h1 _ hmem)]
  · intro hall
    have hnb : l.eg.Wait ≠ none := by
      intro hb
      obtain ⟨lp, hlp, hnone⟩ := hblocked.mp hb
      rw [hall lp hlp] at hnone
      cases hnone
    obtain ⟨r, hr⟩ := Option.ne_none_iff_exists'.mp hnb
    rw [hr, hfirst r hr]
    congr 1
    rw [firstError_eq_none]
    intro x hx
    rw [inv.results.mem_iff, List.mem_flatMap] at hx
    obtain ⟨lp, hlp, hx2⟩ := hx
    rw [hall lp hlp] at hx2
    simp only [List.mem_singleton] at hx2
    rw [hx2]
    rfl

/-- C10 (as amended), for the topics `x/y` and `b`: the loop of `x/y` returns an error
first and the other loop returns nil, and `subscribe` returns that error, wrapped with the
identifier `y` of the topic. -/
theorem subscribe_waits_for_all_witness :
    (subscribe memEnv ⟨"p"⟩ 10 ["x/y", "b"] []
        [.receiveReturns 0 (some (.mk "stream closed")), .receiveReturns 1 none]
        Service.empty).results.Perm
      [some (.withMessage (.mk "stream closed")
        "receive message published to y through pubsub_cli_0 subscription"), none] :=
  (subscribe_waits_for_all memEnv ⟨"p"⟩ 10 ["x/y", "b"] []
    [.receiveReturns 0 (some (.mk "stream closed")), .receiveReturns 1 none] Service.empty
    (by decide)).2.2.1

/-- C10 (as stated) fails: with two receive loops, after the `Receive` of the first loop
has returned nil and while the second loop has not returned, `subscribe` has not
returned; and when the second loop then returns an error, `subscribe` returns that error,
wrapped, and not nil. -/
theorem subscribe_first_return_counterexample :
    ((subscribe memEnv ⟨"p"⟩ 10 ["a", "b"] [] [.receiveReturns 0 none]
        Service.empty).loops.map Loop.returned = [some none, none] ∧
     (subscribe memEnv ⟨"p"⟩ 10 ["a", "b"] [] [.receiveReturns 0 none]
        Service.empty).result = none) ∧
    (subscribe memEnv ⟨"p"⟩ 10 ["a", "b"] []
        [.receiveReturns 0 none, .receiveReturns 1 (some (.mk "stream closed"))]
        Service.empty).result =
      some (some (.withMessage (.mk "stream closed")
        "receive message published to b through pubsub_cli_1 subscription")) := by
  decide

end PubsubCli
